import Mathlib

/-!
# DNS-over-QUIC client (`cmd/client/main.go`)

A shallow embedding of the client: the per-query stream protocol (`SendQuery`),
the argument handling of `main2`, and the fan-out/fan-in dispatcher of `main2`
as an interleaving transition system driven by a schedule.

Bytes are natural numbers below 256; `uint16` values are natural numbers taken
modulo `2 ^ 16` wherever the Go code converts.  The DNS message codec
(`github.com/miekg/dns`) and the QUIC transport (`github.com/quic-go/quic-go`)
are external libraries; the codec is a parameter, the transport is modelled by
the observable behaviour of one stream.
-/

namespace DoqClient

/-! ## Data model -/

/-- Query is the Go `Query` struct: a domain name and a `uint16` record type
(the Go field `Type`, a reserved word here). -/
structure Query where
  Name : String
  Qtype : Nat
  deriving DecidableEq

/-- Value of `dns.TypeIXFR` (RFC 1995). -/
def TypeIXFR : Nat := 251

/-- Value of `dns.TypeAXFR` (RFC 1035). -/
def TypeAXFR : Nat := 252

/-- Causes of failure seen by the client.  `ErrDeadlineExceeded` stands for every
error `err` with `errors.Is(err, os.ErrDeadlineExceeded)`; `other` carries the
message of any other error (stream reset, codec error, ...). -/
inductive Cause where
  | EOF
  | ErrUnexpectedEOF
  | ErrDeadlineExceeded
  | other (msg : String)
  deriving DecidableEq

/-- Text of `err.Error()` for a cause. -/
def Cause.Error : Cause → String
  | .EOF => "EOF"
  | .ErrUnexpectedEOF => "unexpected EOF"
  | .ErrDeadlineExceeded => "deadline exceeded"
  | .other msg => msg

/-- Test `errors.Is(err, os.ErrDeadlineExceeded)`. -/
def Cause.isDeadlineExceeded : Cause → Bool
  | .ErrDeadlineExceeded => true
  | _ => false

/-- Error value built by `fmt.Errorf("<ctx>: %w", err)`. -/
structure WrappedError where
  ctx : String
  cause : Cause
  deriving DecidableEq

/-- Go `fmt.Errorf("<ctx>: %w", cause)`. -/
def Errorf (ctx : String) (cause : Cause) : WrappedError := ⟨ctx, cause⟩

/-- Text of `err.Error()` for a wrapped error. -/
def WrappedError.Error (e : WrappedError) : String := e.ctx ++ ": " ++ e.cause.Error

/-- What a blocked read on the stream meets once the buffered bytes run out:
the peer finished the stream, the read deadline elapsed, or the stream failed. -/
inductive StreamEnd where
  | fin
  | deadline
  | reset (msg : String)
  deriving DecidableEq

/-- One QUIC stream as the client observes it.  `incoming` are the bytes that
arrive before `ending` happens; `writeErr` is the outcome of `stream.Write`;
`written` collects what was written; `closed` records `stream.Close()`. -/
structure Stream where
  incoming : List Nat
  ending : StreamEnd
  writeErr : Option Cause
  written : List Nat
  closed : Bool
  deriving DecidableEq

/-- The external DNS message codec: `msg.Pack()` for the query built from
`(name, type, recursion, dnssec)`, `resp.Unpack(buf)` and `resp.String()`. -/
structure Codec (Msg : Type) where
  pack : Query → Bool → Bool → Except Cause (List Nat)
  unpack : List Nat → Except Cause Msg
  render : Msg → String

/-! ## Stream primitives -/

/-- Error returned by a read that cannot be completed: `io.ReadFull` turns a
clean end of stream into `io.EOF` when nothing was read and into
`io.ErrUnexpectedEOF` otherwise; other errors pass through. -/
def Stream.readFailure (s : Stream) : Cause :=
  match s.ending with
  | .fin => if s.incoming.isEmpty then .EOF else .ErrUnexpectedEOF
  | .deadline => .ErrDeadlineExceeded
  | .reset msg => .other msg

/-- Go `io.ReadFull(stream, buf)` with `len(buf) = n`: a zero-length buffer
succeeds without touching the stream, `n` available bytes are consumed, and a
shortage consumes what is there and fails. -/
def ReadFull (s : Stream) (n : Nat) : Except Cause (List Nat) × Stream :=
  if n = 0 then (.ok [], s)
  else if n ≤ s.incoming.length then
    (.ok (s.incoming.take n), { s with incoming := s.incoming.drop n })
  else (.error s.readFailure, { s with incoming := [] })

/-- Go `binary.BigEndian.Uint16(b)`. -/
def BigEndianUint16 (b : List Nat) : Nat :=
  (b.getD 0 0 % 256) * 256 + b.getD 1 0 % 256

/-- Go `binary.BigEndian.PutUint16(b, v)`: the two bytes stored for `v`. -/
def BigEndianPutUint16 (v : Nat) : List Nat :=
  [v / 256 % 256, v % 256]

/-- Go `binary.Read(stream, binary.BigEndian, &length)` for a `uint16`. -/
def binaryReadUint16 (s : Stream) : Except Cause Nat × Stream :=
  match ReadFull s 2 with
  | (.ok bs, s1) => (.ok (BigEndianUint16 bs), s1)
  | (.error e, s1) => (.error e, s1)

/-- Lines 174-176 of `SendQuery`: `bundle` holds `uint16(len(wire))` in big
endian followed by a copy of `wire`. -/
def bundle (wire : List Nat) : List Nat :=
  BigEndianPutUint16 (wire.length % 2 ^ 16) ++ wire

/-- Go `stream.Write(b)`. -/
def Stream.Write (s : Stream) (b : List Nat) : Option Cause × Stream :=
  match s.writeErr with
  | some e => (some e, s)
  | none => (none, { s with written := s.written ++ b })

/-- Go `stream.Close()`: closes the write side. -/
def Stream.Close (s : Stream) : Stream := { s with closed := true }

/-! ## The per-query protocol -/

/-- Outcome of one `SendQuery` run: the strings sent on `print`, in order, the
returned error (`none` is Go `nil`), and the stream as the run left it (`none`
when no stream was opened). -/
structure RunResult where
  out : List String
  err : Option WrappedError
  stream : Option Stream
  deriving DecidableEq

/-- The `switch msg.Question[0].Qtype` of `SendQuery`: the cases that keep
reading. -/
def isZoneTransfer (qtype : Nat) : Bool :=
  qtype == TypeAXFR || qtype == TypeIXFR

/-- The `for` loop of `SendQuery` (lines 185-212).  `out` are the strings sent
so far.  The loop has no bound in Go; here each iteration spends one unit of
`fuel`, and `none` means the fuel ran out. -/
def readLoop {Msg : Type} (c : Codec Msg) (qtype : Nat) :
    Nat → Stream → List String → Option RunResult
  | 0, _, _ => none
  | fuel + 1, s, out =>
    match binaryReadUint16 s with
    | (.error e, s1) =>
      if e.isDeadlineExceeded then some ⟨out, none, some s1⟩
      else some ⟨out, some (Errorf "read response length" e), some s1⟩
    | (.ok length, s1) =>
      match ReadFull s1 length with
      | (.error e, s2) => some ⟨out, some (Errorf "read response payload" e), some s2⟩
      | (.ok buf, s2) =>
        match c.unpack buf with
        | .error e => some ⟨out, some (Errorf "decode response" e), some s2⟩
        | .ok resp =>
          if isZoneTransfer qtype then readLoop c qtype fuel s2 (out ++ [c.render resp])
          else some ⟨out ++ [c.render resp], none, some s2⟩

/-- Go `SendQuery(session, query, dnssec, recursion, print)`.  `opened` is the
result of `session.OpenStream()`.  Every pass of the read loop that does not
return consumes at least the two length bytes, so `incoming.length + 1` units
of fuel are never used up (`SendQuery_returns`). -/
def SendQuery {Msg : Type} (c : Codec Msg) (opened : Except Cause Stream) (query : Query)
    (dnssec recursion : Bool) : Option RunResult :=
  match opened with
  | .error e => some ⟨[], some (Errorf "open stream" e), none⟩
  | .ok stream =>
    match c.pack query recursion dnssec with
    | .error e => some ⟨[], some (Errorf "pack query" e), some stream.Close⟩
    | .ok wire =>
      match stream.Write (bundle wire) with
      | (some e, s1) => some ⟨[], some (Errorf "send query" e), some s1.Close⟩
      | (none, s1) => readLoop c query.Qtype (s1.incoming.length + 1) s1.Close []

/-- Bytes of one response frame on the wire: the 2-byte big-endian length and
the payload. -/
def frameBytes (payload : List Nat) : List Nat :=
  BigEndianPutUint16 payload.length ++ payload

/-- Bytes of a sequence of response frames, in arrival order. -/
def framesBytes : List (List Nat) → List Nat
  | [] => []
  | p :: ps => frameBytes p ++ framesBytes ps

/-! ## The dispatcher of `main2` (lines 130-154) -/

/-- Strings one query goroutine sends on `print`: those of `SendQuery`, then
the formatted error line when `SendQuery` returned an error. -/
def runLines (r : RunResult) : List String :=
  r.out ++
    match r.err with
    | some e => ["failed to send query: " ++ e.Error ++ "\n"]
    | none => []

/-- One query goroutine: the strings it still has to send on `print` and
whether it has called `wg.Done()`. -/
structure Worker where
  pending : List String
  done : Bool
  deriving DecidableEq

/-- The goroutines of the dispatcher: one per query, the one that waits and
closes the channel, and `main2` itself draining the channel. -/
inductive Tid where
  | worker (i : Nat)
  | closer
  | main
  deriving DecidableEq

/-- State of the dispatcher.  `counter` is the `sync.WaitGroup` counter,
`waited` says `wg.Wait()` has returned, `closed` says `close(print)` has run,
`printed` are the strings received by the `range` loop and passed to
`fmt.Println`, `returned` says `main2` has left the loop, `panicked` records a
send on the closed channel or a negative wait-group counter. -/
structure Dispatch where
  workers : List Worker
  counter : Int
  waited : Bool
  closed : Bool
  printed : List String
  returned : Bool
  panicked : Bool
  deriving DecidableEq

/-- State after `wg.Add(len(queries))` and the `go` statements: one worker per
query holding the strings its run sends. -/
def Dispatch.init (lines : List (List String)) : Dispatch :=
  { workers := lines.map fun l => ⟨l, false⟩
    counter := lines.length
    waited := false
    closed := false
    printed := []
    returned := false
    panicked := false }

/-- One atomic step of goroutine `t`; a step that is not enabled leaves the
state unchanged.  `print` is unbuffered and `main2` does nothing but receive,
so a send hands its string to `main2` directly; a send on the closed channel
panics.  Once `main2` has returned the process is over. -/
def step (st : Dispatch) : Tid → Dispatch
  | .worker i =>
    if st.returned || st.panicked then st
    else
      match st.workers[i]? with
      | none => st
      | some w =>
        if w.done then st
        else
          match w.pending with
          | l :: rest =>
            if st.closed then { st with panicked := true }
            else
              { st with
                workers := st.workers.set i { w with pending := rest }
                printed := st.printed ++ [l] }
          | [] =>
            if st.counter - 1 < 0 then { st with panicked := true }
            else
              { st with
                workers := st.workers.set i { w with done := true }
                counter := st.counter - 1 }
  | .closer =>
    if st.returned || st.panicked then st
    else if !st.waited then
      if st.counter == 0 then { st with waited := true } else st
    else if !st.closed then { st with closed := true }
    else st
  | .main =>
    if st.returned || st.panicked then st
    else if st.closed then { st with returned := true }
    else st

/-- Run the goroutines in the order given by a schedule. -/
def run (sched : List Tid) (st : Dispatch) : Dispatch :=
  sched.foldl step st

/-- Every string the workers have still to send. -/
def pendingLines (ws : List Worker) : List String :=
  (ws.map fun w => w.pending).flatten

/-- Number of workers that have not called `wg.Done()`. -/
def notDone (ws : List Worker) : Nat :=
  (ws.filter fun w => !w.done).length

/-- A schedule that lets worker `i` send `n` strings and call `wg.Done()`. -/
def finishWorker (i n : Nat) : List Tid :=
  List.replicate (n + 1) (Tid.worker i)

/-- A schedule that completes the dispatcher from a state in which the workers
from index `i` on are `ws`: each worker in turn, then the closing goroutine
twice, then `main2`. -/
def finishFrom : Nat → List Worker → List Tid
  | _, [] => [Tid.closer, Tid.closer, Tid.main]
  | i, w :: ws => finishWorker i w.pending.length ++ finishFrom (i + 1) ws

/-! ## `main2` (lines 29-155) -/

/-- The command-line flags after `flag.Parse()`. -/
structure Flags where
  server : String
  dnssec : Bool
  recursion : Bool
  keysPath : String
  timeout : Nat
  tlsCA : String
  tlsCert : String
  tlsKey : String
  deriving DecidableEq

/-- The fields of `tls.Config` that `main2` sets. -/
structure TLSConfig where
  NextProtos : List String
  KeyLogWriter : Option String
  InsecureSkipVerify : Bool
  RootCAs : Option (List Nat)
  Certificates : List (String × String)
  deriving DecidableEq

/-- Effects of `main2` visible outside the process, in program order. -/
inductive Event where
  | usage
  | stderr (text : String)
  | openFile (path : String)
  | closeFile (path : String)
  | readFile (path : String)
  | loadKeyPair (cert key : String)
  | dial (server : String) (timeout : Nat) (config : TLSConfig)
  | closeSession
  | stdout (line : String)
  deriving DecidableEq

/-- How far `main2` got: it returned an exit code, it is still running when
the schedule ends, or a goroutine panicked. -/
inductive Outcome where
  | exited (code : Nat)
  | running
  | crashed
  deriving DecidableEq

/-- The world outside `main2`: the type table and `Fqdn` of the DNS library,
the codec, the file system, the TLS loaders, and the server reached by
`quic.DialAddr`, which gives, for the goroutine of the `i`-th query, the
result of `session.OpenStream()`.  Failures carry the error text. -/
structure World (Msg : Type) where
  StringToType : String → Option Nat
  Fqdn : String → String
  codec : Codec Msg
  OpenFile : String → Except String Unit
  ReadFile : String → Except String (List Nat)
  AppendCertsFromPEM : List Nat → Bool
  LoadX509KeyPair : String → String → Except String Unit
  DialAddr : String → Nat → TLSConfig → Except String (Nat → Except Cause Stream)

/-- The loop of lines 62-75 over the positional arguments still to be read
(`flag.Arg(i)`, `flag.Arg(i+1)`, ... with `i+1 < flag.NArg()`), with the
queries appended and the lines written to standard error so far.  `none` is
the `return 1` for an unknown type mnemonic. -/
def parseQueries (StringToType : String → Option Nat) (Fqdn : String → String) :
    List String → List Query → List Event → Option (List Query) × List Event
  | name :: ty :: rest, queries, ev =>
    match StringToType ty with
    | none => (none, ev ++ [Event.stderr ("invalid qtype: " ++ ty ++ "\n")])
    | some qtype =>
      if qtype = TypeIXFR then
        parseQueries StringToType Fqdn rest queries
          (ev ++ [Event.stderr ("skipping unsupported qtype: " ++ ty ++ "\n")])
      else parseQueries StringToType Fqdn rest (queries ++ [⟨Fqdn name, qtype⟩]) ev
  | _, queries, ev => (some queries, ev)

/-- The runs of `SendQuery` started by the `go` statements, from query index
`i` on; `none` when one of them runs out of fuel. -/
def runAll {Msg : Type} (c : Codec Msg) (session : Nat → Except Cause Stream)
    (dnssec recursion : Bool) : Nat → List Query → Option (List RunResult)
  | _, [] => some []
  | i, q :: qs =>
    match SendQuery c (session i) q dnssec recursion with
    | none => none
    | some r =>
      match runAll c session dnssec recursion (i + 1) qs with
      | none => none
      | some rs => some (r :: rs)

/-- Lines 130-154: fan out, fan in under the schedule, and report. `deferred`
are the effects of the pending `defer` statements, run when `main2` returns. -/
def dispatch (results : List RunResult) (sched : List Tid) (ev deferred : List Event) :
    Outcome × List Event :=
  let st := run sched (Dispatch.init (results.map runLines))
  let shown := ev ++ st.printed.map Event.stdout
  if st.panicked then (Outcome.crashed, shown)
  else if st.returned then (Outcome.exited 0, shown ++ deferred)
  else (Outcome.running, shown)

/-- Lines 77-86: open the file for the session keys when `-export_keys_path`
is given.  The result is the `KeyLogWriter` or the line for standard error. -/
def openKeyLog {Msg : Type} (w : World Msg) (f : Flags) :
    Except String (Option String) × List Event :=
  if f.keysPath ≠ "" then
    match w.OpenFile f.keysPath with
    | .error e =>
      (.error ("failed to open file for session keys: " ++ e ++ "\n"),
        [Event.openFile f.keysPath])
    | .ok _ => (.ok (some f.keysPath), [Event.openFile f.keysPath])
  else (.ok none, [])

/-- Lines 93-108: server certificate validation. -/
def serverValidation {Msg : Type} (w : World Msg) (f : Flags) (cfg : TLSConfig) :
    Except String TLSConfig × List Event :=
  if f.tlsCA = "" then (.ok { cfg with InsecureSkipVerify := true }, [])
  else
    match w.ReadFile f.tlsCA with
    | .error e =>
      (.error ("failed to load CA certificate bundle: " ++ e ++ "\n"), [Event.readFile f.tlsCA])
    | .ok data =>
      if w.AppendCertsFromPEM data then
        (.ok { cfg with RootCAs := some data }, [Event.readFile f.tlsCA])
      else
        (.error "failed to load CA certificate bundle: no certificate found\n",
          [Event.readFile f.tlsCA])

/-- Lines 110-119: client certificate. -/
def clientCertificate {Msg : Type} (w : World Msg) (f : Flags) (cfg : TLSConfig) :
    Except String TLSConfig × List Event :=
  if f.tlsCert ≠ "" ∧ f.tlsKey ≠ "" then
    match w.LoadX509KeyPair f.tlsCert f.tlsKey with
    | .error e =>
      (.error ("failed to load TLS certificate: " ++ e ++ "\n"),
        [Event.loadKeyPair f.tlsCert f.tlsKey])
    | .ok _ =>
      (.ok { cfg with Certificates := cfg.Certificates ++ [(f.tlsCert, f.tlsKey)] },
        [Event.loadKeyPair f.tlsCert f.tlsKey])
  else (.ok cfg, [])

/-- Lines 77-154 of `main2`: everything after the query set is built.  `ev`
are the effects so far. -/
def connectAndDispatch {Msg : Type} (w : World Msg) (f : Flags) (queries : List Query)
    (ev : List Event) (sched : List Tid) : Option (Outcome × List Event) :=
  match openKeyLog w f with
  | (.error line, evKey) => some (Outcome.exited 1, ev ++ evKey ++ [Event.stderr line])
  | (.ok keyLog, evKey) =>
    let deferKey := if keyLog.isSome then [Event.closeFile f.keysPath] else []
    let tlsConfig : TLSConfig :=
      { NextProtos := ["doq"], KeyLogWriter := keyLog, InsecureSkipVerify := false,
        RootCAs := none, Certificates := [] }
    match serverValidation w f tlsConfig with
    | (.error line, evCA) =>
      some (Outcome.exited 1, ev ++ evKey ++ evCA ++ [Event.stderr line] ++ deferKey)
    | (.ok cfg1, evCA) =>
      match clientCertificate w f cfg1 with
      | (.error line, evCert) =>
        some (Outcome.exited 1,
          ev ++ evKey ++ evCA ++ evCert ++ [Event.stderr line] ++ deferKey)
      | (.ok cfg2, evCert) =>
        let ev3 := ev ++ evKey ++ evCA ++ evCert ++ [Event.dial f.server f.timeout cfg2]
        match w.DialAddr f.server f.timeout cfg2 with
        | .error e =>
          some (Outcome.exited 1,
            ev3 ++ [Event.stderr ("failed to connect to the server: " ++ e ++ "\n")]
              ++ deferKey)
        | .ok session =>
          match runAll w.codec session f.dnssec f.recursion 0 queries with
          | none => none
          | some results =>
            some (dispatch results sched ev3 ([Event.closeSession] ++ deferKey))

/-- Go `main2()`, given the parsed flags, the positional arguments and the
schedule of the goroutines it starts.  The result is `none` only if a run of
`SendQuery` runs out of fuel. -/
def main2 {Msg : Type} (w : World Msg) (f : Flags) (args : List String) (sched : List Tid) :
    Option (Outcome × List Event) :=
  if args.length = 0 ∨ args.length % 2 ≠ 0 then some (Outcome.exited 1, [Event.usage])
  else
    match parseQueries w.StringToType w.Fqdn args [] [] with
    | (none, ev) => some (Outcome.exited 1, ev)
    | (some queries, ev) => connectAndDispatch w f queries ev sched

/-- The positional arguments read as (name, type mnemonic) pairs. -/
def pairs : List String → List (String × String)
  | name :: ty :: rest => (name, ty) :: pairs rest
  | _ => []

/-- The query set as the specification words it: the (name, type) pairs in
input order, the name made fully qualified, without the pairs whose type is
the incremental-transfer type. -/
def specQueries (StringToType : String → Option Nat) (Fqdn : String → String)
    (args : List String) : List Query :=
  (pairs args).filterMap fun p =>
    match StringToType p.2 with
    | some qtype => if qtype = TypeIXFR then none else some ⟨Fqdn p.1, qtype⟩
    | none => none

/-- The invariant of the dispatcher, for the strings `lines` the runs send:
no panic; the wait-group counter is the number of goroutines that have not
called `wg.Done()`; a goroutine calls `wg.Done()` only after its last send;
`wg.Wait()` returns only at counter zero; the channel is closed only after
that; `main2` returns only after the close; and the strings printed so far
together with the strings still to be sent are the strings of the runs. -/
structure Inv (lines : List (List String)) (st : Dispatch) : Prop where
  noPanic : st.panicked = false
  counter_eq : st.counter = (notDone st.workers : Int)
  done_last : ∀ w ∈ st.workers, w.done = true → w.pending = []
  waited_zero : st.waited = true → st.counter = 0
  closed_waited : st.closed = true → st.waited = true
  returned_closed : st.returned = true → st.closed = true
  lines_kept : (st.printed ++ pendingLines st.workers).Perm lines.flatten
  workers_length : st.workers.length = lines.length

/-! ## Concrete data for the examples -/

/-- A small codec: a message is its own byte list, an empty payload does not
decode, every query packs to three bytes. -/
def demoCodec : Codec (List Nat) where
  pack := fun q _ _ => .ok [q.Name.length % 256, q.Qtype / 256 % 256, q.Qtype % 256]
  unpack := fun buf => if buf.isEmpty then .error (.other "overflow unpacking uint16") else .ok buf
  render := fun m => String.mk (m.map Char.ofNat)

/-- A codec whose packed query is 65536 bytes long. -/
def bigCodec : Codec (List Nat) where
  pack := fun _ _ _ => .ok (List.replicate 65536 0)
  unpack := fun buf => .ok buf
  render := fun m => String.mk (m.map Char.ofNat)

/-- A stream on which `incoming` arrives and then the read deadline elapses. -/
def idleAfter (incoming : List Nat) : Stream :=
  { incoming := incoming, ending := .deadline, writeErr := none, written := [], closed := false }

/-- A stream on which `incoming` arrives and then the peer finishes the stream. -/
def finishedAfter (incoming : List Nat) : Stream :=
  { incoming := incoming, ending := .fin, writeErr := none, written := [], closed := false }

/-- An address query and a full zone transfer for the same name. -/
def demoQueries : List Query :=
  [⟨"example.com.", 1⟩, ⟨"example.com.", TypeAXFR⟩]

/-- A server that answers the query on stream 0 with one frame and the query
on any other stream with two frames, and then stays silent. -/
def demoSession : Nat → Except Cause Stream
  | 0 => .ok (idleAfter (frameBytes [7]))
  | _ => .ok (idleAfter (framesBytes [[8], [9]]))

/-- A world with a three-entry type table (`A`, `AXFR`, `IXFR`), a server that
behaves as `demoSession`, and no files. -/
def demoWorld : World (List Nat) where
  StringToType := fun t =>
    if t = "A" then some 1 else if t = "AXFR" then some TypeAXFR
    else if t = "IXFR" then some TypeIXFR else none
  Fqdn := fun n => n ++ "."
  codec := demoCodec
  OpenFile := fun _ => .error "no such file or directory"
  ReadFile := fun _ => .error "no such file or directory"
  AppendCertsFromPEM := fun _ => false
  LoadX509KeyPair := fun _ _ => .error "no such file or directory"
  DialAddr := fun _ _ _ => .ok demoSession

/-- The default flag values of `main2`. -/
def defaultFlags : Flags :=
  { server := "127.0.0.1:853", dnssec := true, recursion := true, keysPath := "",
    timeout := 3, tlsCA := "", tlsCert := "", tlsKey := "" }

/-- Strings of two runs, the second a zone transfer answered by two frames. -/
def demoLines : List (List String) := [["a"], ["b", "c"]]

/-- A schedule for two goroutines that interleaves their sends. -/
def demoSchedule : List Tid :=
  [.worker 1, .closer, .worker 0, .worker 1, .main, .worker 0, .worker 1, .closer, .closer,
    .main]

/-- What the two runs of `demoQueries` against `demoSession` return. -/
def demoResults : List RunResult :=
  [⟨[demoCodec.render [7]], none,
      some { idleAfter [] with written := bundle [12, 0, 1], closed := true }⟩,
    ⟨[demoCodec.render [8], demoCodec.render [9]], none,
      some { idleAfter [] with written := bundle [12, 0, 252], closed := true }⟩]

/-! ## Reading frames -/

theorem BigEndianUint16_PutUint16 (v : Nat) (h : v < 2 ^ 16) :
    BigEndianUint16 (BigEndianPutUint16 v) = v := by
  simp [BigEndianUint16, BigEndianPutUint16]
  omega

theorem binaryReadUint16_length (s : Stream) (n : Nat) (rest : List Nat) (h : n < 2 ^ 16) :
    binaryReadUint16 { s with incoming := BigEndianPutUint16 n ++ rest } =
      (.ok n, { s with incoming := rest }) := by
  have hv := BigEndianUint16_PutUint16 n h
  simp [binaryReadUint16, ReadFull, BigEndianPutUint16] at hv ⊢
  simpa [BigEndianPutUint16] using hv

theorem binaryReadUint16_frame (s : Stream) (p rest : List Nat) (h : p.length < 2 ^ 16) :
    binaryReadUint16 { s with incoming := frameBytes p ++ rest } =
      (.ok p.length, { s with incoming := p ++ rest }) := by
  simpa [frameBytes] using binaryReadUint16_length s p.length (p ++ rest) h

theorem ReadFull_payload (s : Stream) (p rest : List Nat) :
    ReadFull { s with incoming := p ++ rest } p.length = (.ok p, { s with incoming := rest }) := by
  cases p with
  | nil => simp [ReadFull]
  | cons a p => simp [ReadFull]

theorem binaryReadUint16_short (s : Stream) (h : s.incoming.length < 2) :
    binaryReadUint16 s = (.error s.readFailure, { s with incoming := [] }) := by
  have h2 : ¬ 2 ≤ s.incoming.length := by omega
  simp [binaryReadUint16, ReadFull, h2]

theorem ReadFull_short (s : Stream) (n : Nat) (h : s.incoming.length < n) :
    ReadFull s n = (.error s.readFailure, { s with incoming := [] }) := by
  have h0 : n ≠ 0 := by omega
  have h2 : ¬ n ≤ s.incoming.length := by omega
  simp [ReadFull, h0, h2]

/-- One pass of the read loop over a well-formed frame. -/
theorem readLoop_frame {Msg : Type} (c : Codec Msg) (qtype fuel : Nat) (s : Stream)
    (p rest : List Nat) (out : List String) (m : Msg)
    (hlen : p.length < 2 ^ 16) (hm : c.unpack p = .ok m) :
    readLoop c qtype (fuel + 1) { s with incoming := frameBytes p ++ rest } out =
      if isZoneTransfer qtype then
        readLoop c qtype fuel { s with incoming := rest } (out ++ [c.render m])
      else some ⟨out ++ [c.render m], none, some { s with incoming := rest }⟩ := by
  have h1 := binaryReadUint16_frame s p rest hlen
  have h2 := ReadFull_payload s p rest
  simp only [readLoop, h1, h2, hm]

/-- The read loop of a zone-transfer query passes over a run of well-formed
frames, sending the rendering of each in arrival order. -/
theorem readLoop_frames {Msg : Type} (c : Codec Msg) (qtype : Nat) (s : Stream)
    (tail : List Nat) :
    ∀ (frames : List (List Nat × Msg)) (fuel : Nat) (out : List String),
      (frames ≠ [] → isZoneTransfer qtype = true) →
      (∀ f ∈ frames, f.1.length < 2 ^ 16 ∧ c.unpack f.1 = .ok f.2) →
      readLoop c qtype (frames.length + fuel)
          { s with incoming := framesBytes (frames.map Prod.fst) ++ tail } out =
        readLoop c qtype fuel { s with incoming := tail }
          (out ++ frames.map fun f => c.render f.2) := by
  intro frames
  induction frames with
  | nil => intro fuel out _ _; simp [framesBytes]
  | cons f frames ih =>
    intro fuel out hz h
    have hq : isZoneTransfer qtype = true := hz (List.cons_ne_nil _ _)
    have hf := h f (List.mem_cons_self _ _)
    have hrest : ∀ g ∈ frames, g.1.length < 2 ^ 16 ∧ c.unpack g.1 = .ok g.2 :=
      fun g hg => h g (List.mem_cons_of_mem _ hg)
    have hfuel : (f :: frames).length + fuel = (frames.length + fuel) + 1 := by
      simp only [List.length_cons]; omega
    have hbytes : framesBytes ((f :: frames).map Prod.fst) ++ tail =
        frameBytes f.1 ++ (framesBytes (frames.map Prod.fst) ++ tail) := by
      simp [framesBytes]
    rw [hfuel, hbytes, readLoop_frame c qtype _ s f.1 _ out f.2 hf.1 hf.2, hq]
    simp only [if_true]
    rw [ih fuel _ (fun _ => hq) hrest]
    simp

theorem framesBytes_length (ps : List (List Nat)) : 2 * ps.length ≤ (framesBytes ps).length := by
  induction ps with
  | nil => simp [framesBytes]
  | cons p ps ih =>
    simp only [framesBytes, frameBytes, BigEndianPutUint16, List.length_append, List.length_cons,
      List.length_nil]
    omega

theorem ReadFull_fields (s : Stream) (n : Nat) :
    (ReadFull s n).2.written = s.written ∧ (ReadFull s n).2.ending = s.ending ∧
      (ReadFull s n).2.incoming.length ≤ s.incoming.length := by
  unfold ReadFull
  split
  · simp
  · split <;> simp

theorem ReadFull_ok_length (s : Stream) (n : Nat) (bs : List Nat) (s1 : Stream)
    (h : ReadFull s n = (.ok bs, s1)) : s1.incoming.length + n = s.incoming.length := by
  unfold ReadFull at h
  split at h
  · simp at h; obtain ⟨_, rfl⟩ := h; omega
  · split at h
    · simp at h; obtain ⟨_, rfl⟩ := h; simp; omega
    · simp at h

theorem ReadFull_error_deadline (s : Stream) (n : Nat) (e : Cause) (s1 : Stream)
    (h : ReadFull s n = (.error e, s1)) (he : e.isDeadlineExceeded = true) :
    s.ending = StreamEnd.deadline := by
  unfold ReadFull at h
  split at h
  · simp at h
  · split at h
    · simp at h
    · simp at h
      obtain ⟨rfl, _⟩ := h
      unfold Stream.readFailure at he
      split at he
      · split at he <;> simp [Cause.isDeadlineExceeded] at he
      · assumption
      · simp [Cause.isDeadlineExceeded] at he

/-- What the read loop leaves behind: whenever it returns, the stream it
returns has the same written bytes and the same ending. -/
theorem readLoop_stream {Msg : Type} (c : Codec Msg) (qtype : Nat) :
    ∀ (fuel : Nat) (s : Stream) (out : List String) (r : RunResult),
      readLoop c qtype fuel s out = some r →
      ∃ s1, r.stream = some s1 ∧ s1.written = s.written ∧ s1.ending = s.ending := by
  intro fuel
  induction fuel with
  | zero => intro s out r h; simp [readLoop] at h
  | succ fuel ih =>
    intro s out r h
    unfold readLoop binaryReadUint16 at h
    have f1 := ReadFull_fields s 2
    rcases h1 : ReadFull s 2 with ⟨res1, s1⟩
    rw [h1] at h f1
    cases res1 with
    | error e =>
      simp only at h
      split at h <;> (simp at h; subst h; exact ⟨s1, rfl, f1.1, f1.2.1⟩)
    | ok bs =>
      simp only at h
      have f2 := ReadFull_fields s1 (BigEndianUint16 bs)
      rcases h2 : ReadFull s1 (BigEndianUint16 bs) with ⟨res2, s2⟩
      rw [h2] at h f2
      have hw : s2.written = s.written := f2.1.trans f1.1
      have he : s2.ending = s.ending := f2.2.1.trans f1.2.1
      cases res2 with
      | error e => simp at h; subst h; exact ⟨s2, rfl, hw, he⟩
      | ok buf =>
        simp only at h
        cases h3 : c.unpack buf with
        | error e => rw [h3] at h; simp at h; subst h; exact ⟨s2, rfl, hw, he⟩
        | ok resp =>
          rw [h3] at h
          simp only at h
          split at h
          · obtain ⟨s3, h31, h32, h33⟩ := ih s2 _ r h
            exact ⟨s3, h31, h32.trans hw, h33.trans he⟩
          · simp at h; subst h; exact ⟨s2, rfl, hw, he⟩

/-- The read loop returns whenever its fuel exceeds the number of bytes still
to arrive. -/
theorem readLoop_returns {Msg : Type} (c : Codec Msg) (qtype : Nat) :
    ∀ (fuel : Nat) (s : Stream) (out : List String),
      s.incoming.length < fuel → (readLoop c qtype fuel s out).isSome = true := by
  intro fuel
  induction fuel with
  | zero => intro s out h; omega
  | succ fuel ih =>
    intro s out h
    unfold readLoop binaryReadUint16
    rcases h1 : ReadFull s 2 with ⟨res1, s1⟩
    cases res1 with
    | error e => simp only; split <;> simp
    | ok bs =>
      simp only
      have l1 := ReadFull_ok_length s 2 bs s1 h1
      have f2 := ReadFull_fields s1 (BigEndianUint16 bs)
      rcases h2 : ReadFull s1 (BigEndianUint16 bs) with ⟨res2, s2⟩
      rw [h2] at f2
      cases res2 with
      | error e => simp
      | ok buf =>
        simp only
        cases h3 : c.unpack buf with
        | error e => simp
        | ok resp =>
          simp only
          split
          · apply ih
            have l2 : s2.incoming.length ≤ s1.incoming.length := f2.2.2
            omega
          · simp

/-- Totality: `SendQuery` returns on every stream. -/
theorem SendQuery_returns {Msg : Type} (c : Codec Msg) (opened : Except Cause Stream)
    (query : Query) (dnssec recursion : Bool) :
    (SendQuery c opened query dnssec recursion).isSome = true := by
  unfold SendQuery
  cases opened with
  | error e => simp
  | ok stream =>
    simp only
    cases c.pack query recursion dnssec with
    | error e => simp
    | ok wire =>
      simp only
      unfold Stream.Write
      cases stream.writeErr with
      | some e => simp
      | none =>
        simp only
        apply readLoop_returns
        simp [Stream.Close]

/-! ## `SendQuery` -/

/-- Once the stream is open, the query packed and the bundle written,
`SendQuery` is its read loop on the half-closed stream. -/
theorem SendQuery_sent {Msg : Type} (c : Codec Msg) (stream : Stream) (query : Query)
    (dnssec recursion : Bool) (wire : List Nat)
    (hpack : c.pack query recursion dnssec = .ok wire) (hwrite : stream.writeErr = none) :
    SendQuery c (.ok stream) query dnssec recursion =
      readLoop c query.Qtype (stream.incoming.length + 1)
        { stream with written := stream.written ++ bundle wire, closed := true } [] := by
  simp [SendQuery, hpack, Stream.Write, hwrite, Stream.Close]

theorem SendQuery_frames {Msg : Type} (c : Codec Msg) (stream : Stream) (query : Query)
    (dnssec recursion : Bool) (wire : List Nat) (frames : List (List Nat × Msg))
    (tail : List Nat)
    (hq : frames ≠ [] → isZoneTransfer query.Qtype = true)
    (hpack : c.pack query recursion dnssec = .ok wire) (hwrite : stream.writeErr = none)
    (hframes : ∀ f ∈ frames, f.1.length < 2 ^ 16 ∧ c.unpack f.1 = .ok f.2)
    (hin : stream.incoming = framesBytes (frames.map Prod.fst) ++ tail) :
    ∃ k, SendQuery c (.ok stream) query dnssec recursion =
      readLoop c query.Qtype (k + 1)
        { stream with incoming := tail, written := stream.written ++ bundle wire, closed := true }
        (frames.map fun f => c.render f.2) := by
  have hlen := framesBytes_length (frames.map Prod.fst)
  have hl : stream.incoming.length = (framesBytes (frames.map Prod.fst)).length + tail.length := by
    rw [hin, List.length_append]
  simp only [List.length_map] at hlen
  refine ⟨stream.incoming.length - frames.length, ?_⟩
  have hfuel : stream.incoming.length + 1 =
      frames.length + (stream.incoming.length - frames.length + 1) := by omega
  rw [SendQuery_sent c stream query dnssec recursion wire hpack hwrite, hfuel]
  have hs : ({ stream with written := stream.written ++ bundle wire, closed := true } : Stream) =
      { ({ stream with written := stream.written ++ bundle wire, closed := true } : Stream) with
        incoming := framesBytes (frames.map Prod.fst) ++ tail } := by
    rw [← hin]
  rw [hs, readLoop_frames c query.Qtype _ tail frames _ [] hq hframes]
  simp

theorem readLoop_no_length {Msg : Type} (c : Codec Msg) (qtype fuel : Nat) (s : Stream)
    (out : List String) (h : s.incoming.length < 2) :
    readLoop c qtype (fuel + 1) s out =
      if s.readFailure.isDeadlineExceeded then some ⟨out, none, some { s with incoming := [] }⟩
      else some ⟨out, some (Errorf "read response length" s.readFailure),
        some { s with incoming := [] }⟩ := by
  simp only [readLoop, binaryReadUint16_short s h]

theorem readLoop_short_payload {Msg : Type} (c : Codec Msg) (qtype fuel : Nat) (s : Stream)
    (out : List String) (n : Nat) (part : List Nat) (hn : n < 2 ^ 16) (hpart : part.length < n) :
    readLoop c qtype (fuel + 1) { s with incoming := BigEndianPutUint16 n ++ part } out =
      some ⟨out, some (Errorf "read response payload" { s with incoming := part }.readFailure),
        some { s with incoming := [] }⟩ := by
  have h2 := ReadFull_short { s with incoming := part } n hpart
  simp only [readLoop, binaryReadUint16_length s n part hn, h2]

theorem isZoneTransfer_false (qtype : Nat) (h1 : qtype ≠ TypeAXFR) (h2 : qtype ≠ TypeIXFR) :
    isZoneTransfer qtype = false := by
  simp [isZoneTransfer, h1, h2]

theorem isZoneTransfer_true (qtype : Nat) (h : qtype = TypeAXFR ∨ qtype = TypeIXFR) :
    isZoneTransfer qtype = true := by
  rcases h with h | h <;> simp [isZoneTransfer, h]

theorem ReadFull_error_short (s : Stream) (n : Nat) (e : Cause) (s1 : Stream)
    (h : ReadFull s n = (.error e, s1)) : s.incoming.length < n := by
  unfold ReadFull at h
  split at h
  · simp at h
  · split at h
    · simp at h
    · omega

theorem ReadFull_ok_eq (s : Stream) (n : Nat) (bs : List Nat) (s1 : Stream)
    (h : ReadFull s n = (.ok bs, s1)) :
    bs = s.incoming.take n ∧ s1 = { s with incoming := s.incoming.drop n } ∧
      n ≤ s.incoming.length := by
  unfold ReadFull at h
  split at h
  · rename_i h0
    simp only [Prod.mk.injEq, Except.ok.injEq] at h
    obtain ⟨rfl, rfl⟩ := h
    subst h0
    simp
  · split at h
    · rename_i hle
      simp only [Prod.mk.injEq, Except.ok.injEq] at h
      obtain ⟨rfl, rfl⟩ := h
      exact ⟨rfl, rfl, hle⟩
    · simp at h

theorem ReadFull_error_eq (s : Stream) (n : Nat) (e : Cause) (s1 : Stream)
    (h : ReadFull s n = (.error e, s1)) : s1 = { s with incoming := [] } := by
  unfold ReadFull at h
  split at h
  · simp at h
  · split at h
    · simp at h
    · simp only [Prod.mk.injEq] at h
      exact h.2.symm

/-- A zone-transfer read loop returns without error only through the
deadline branch of the length read: the bytes it was given are a run of
frames, each two length bytes that read as the length of a payload that
decodes, followed by fewer than two bytes and the deadline, and the strings
sent are the renderings of those frames. -/
theorem readLoop_zone_success {Msg : Type} (c : Codec Msg) (qtype : Nat)
    (hq : isZoneTransfer qtype = true) :
    ∀ (fuel : Nat) (s : Stream) (out : List String) (r : RunResult),
      readLoop c qtype fuel s out = some r → r.err = none →
      ∃ (got : List (List Nat × List Nat × Msg)) (tail : List Nat),
        s.incoming = (got.map fun f => f.1 ++ f.2.1).flatten ++ tail ∧
        (∀ f ∈ got, f.1.length = 2 ∧ BigEndianUint16 f.1 = f.2.1.length ∧
          c.unpack f.2.1 = .ok f.2.2) ∧
        r.out = out ++ (got.map fun f => c.render f.2.2) ∧
        tail.length < 2 ∧ s.ending = StreamEnd.deadline ∧
        r.stream = some { s with incoming := [] } := by
  intro fuel
  induction fuel with
  | zero => intro s out r h; simp [readLoop] at h
  | succ fuel ih =>
    intro s out r h hr
    unfold readLoop binaryReadUint16 at h
    rcases h1 : ReadFull s 2 with ⟨res1, s1⟩
    rw [h1] at h
    cases res1 with
    | error e =>
      simp only at h
      split at h
      · rename_i hd
        simp only [Option.some.injEq] at h
        subst h
        exact ⟨[], s.incoming, by simp, by simp, by simp, ReadFull_error_short s 2 e s1 h1,
          ReadFull_error_deadline s 2 e s1 h1 hd, by rw [ReadFull_error_eq s 2 e s1 h1]⟩
      · simp at h; subst h; simp at hr
    | ok bs =>
      simp only at h
      obtain ⟨hbs, hs1, hle1⟩ := ReadFull_ok_eq s 2 bs s1 h1
      rcases h2 : ReadFull s1 (BigEndianUint16 bs) with ⟨res2, s2⟩
      rw [h2] at h
      cases res2 with
      | error e => simp at h; subst h; simp at hr
      | ok buf =>
        simp only at h
        obtain ⟨hbuf, hs2, hle2⟩ := ReadFull_ok_eq s1 (BigEndianUint16 bs) buf s2 h2
        cases h3 : c.unpack buf with
        | error e => rw [h3] at h; simp at h; subst h; simp at hr
        | ok resp =>
          rw [h3, hq] at h
          simp only [if_true] at h
          obtain ⟨got, tail, hin, hgot, hout, htail, hend, hstream⟩ := ih s2 _ r h hr
          have e1 : s1.incoming = s.incoming.drop 2 := by rw [hs1]
          have e2 : s2.incoming = s1.incoming.drop (BigEndianUint16 bs) := by rw [hs2]
          have hsplit1 : s.incoming = bs ++ s1.incoming := by
            rw [hbs, e1, List.take_append_drop]
          have hsplit2 : s1.incoming = buf ++ s2.incoming := by
            rw [hbuf, e2, List.take_append_drop]
          have hlen1 : bs.length = 2 := by
            rw [hbs, List.length_take]; omega
          have hlen2 : buf.length = BigEndianUint16 bs := by
            rw [hbuf, List.length_take]; omega
          have hend2 : s2.ending = s.ending := by rw [hs2, hs1]
          refine ⟨(bs, buf, resp) :: got, tail, ?_, ?_, ?_, htail, ?_, ?_⟩
          · rw [hsplit1, hsplit2, hin]
            simp
          · intro f hf
            simp only [List.mem_cons] at hf
            rcases hf with rfl | hf
            · exact ⟨hlen1, hlen2.symm, h3⟩
            · exact hgot f hf
          · rw [hout]; simp
          · rw [← hend2]; exact hend
          · rw [hstream, hs2, hs1]

/-- After a run of well-formed frames (empty unless the query is a zone
transfer) and fewer than two further bytes, `SendQuery` ends in the failed
length read. -/
theorem SendQuery_then_no_length {Msg : Type} (c : Codec Msg) (stream : Stream) (query : Query)
    (dnssec recursion : Bool) (wire : List Nat) (frames : List (List Nat × Msg))
    (tail : List Nat)
    (hq : frames ≠ [] → isZoneTransfer query.Qtype = true)
    (hpack : c.pack query recursion dnssec = .ok wire) (hwrite : stream.writeErr = none)
    (hframes : ∀ f ∈ frames, f.1.length < 2 ^ 16 ∧ c.unpack f.1 = .ok f.2)
    (hin : stream.incoming = framesBytes (frames.map Prod.fst) ++ tail)
    (htail : tail.length < 2) :
    SendQuery c (.ok stream) query dnssec recursion =
      if ({ stream with incoming := tail } : Stream).readFailure.isDeadlineExceeded then
        some ⟨frames.map fun f => c.render f.2, none,
          some { stream with
            incoming := [], written := stream.written ++ bundle wire, closed := true }⟩
      else
        some ⟨frames.map fun f => c.render f.2,
          some (Errorf "read response length"
            ({ stream with incoming := tail } : Stream).readFailure),
          some { stream with
            incoming := [], written := stream.written ++ bundle wire, closed := true }⟩ := by
  obtain ⟨k, hk⟩ := SendQuery_frames c stream query dnssec recursion wire frames tail hq hpack
    hwrite hframes hin
  rw [hk, readLoop_no_length c query.Qtype k _ _ (by simpa using htail)]
  simp [Stream.readFailure]

/-- C1: for a query whose type is neither AXFR nor IXFR, when the stream opens,
the query packs, the write succeeds and the stream then delivers one
well-formed frame (its 2-byte big-endian length `L` and `L` bytes that decode to
`m`), `SendQuery` returns, sends exactly one string, the rendering of `m`,
returns no error, and leaves every byte after the frame unread, whatever those
bytes are and however the stream ends. -/
theorem SendQuery_single_response {Msg : Type} (c : Codec Msg) (stream : Stream) (query : Query)
    (dnssec recursion : Bool) (wire payload rest : List Nat) (m : Msg)
    (hAXFR : query.Qtype ≠ TypeAXFR) (hIXFR : query.Qtype ≠ TypeIXFR)
    (hpack : c.pack query recursion dnssec = .ok wire) (hwrite : stream.writeErr = none)
    (hlen : payload.length < 2 ^ 16) (hm : c.unpack payload = .ok m)
    (hin : stream.incoming = frameBytes payload ++ rest) :
    SendQuery c (.ok stream) query dnssec recursion =
      some ⟨[c.render m], none,
        some { stream with
          incoming := rest, written := stream.written ++ bundle wire, closed := true }⟩ := by
  have hs : ({ stream with written := stream.written ++ bundle wire, closed := true } : Stream) =
      { ({ stream with written := stream.written ++ bundle wire, closed := true } : Stream) with
        incoming := frameBytes payload ++ rest } := by
    rw [← hin]
  rw [SendQuery_sent c stream query dnssec recursion wire hpack hwrite, hs,
    readLoop_frame c query.Qtype _ _ payload rest [] m hlen hm,
    isZoneTransfer_false query.Qtype hAXFR hIXFR]
  simp

/-- An instance of C1: an address query answered by one frame followed by three stray bytes. -/
theorem SendQuery_single_response_witness :
    SendQuery demoCodec (.ok (idleAfter (frameBytes [7] ++ [1, 2, 3]))) ⟨"example.com.", 1⟩
        true true =
      some ⟨[demoCodec.render [7]], none,
        some { idleAfter (frameBytes [7] ++ [1, 2, 3]) with
          incoming := [1, 2, 3]
          written := (idleAfter (frameBytes [7] ++ [1, 2, 3])).written ++ bundle [12, 0, 1]
          closed := true }⟩ :=
  SendQuery_single_response demoCodec (idleAfter (frameBytes [7] ++ [1, 2, 3]))
    ⟨"example.com.", 1⟩ true true [12, 0, 1] [7] [1, 2, 3] [7]
    (by decide) (by decide) rfl rfl (by decide) rfl rfl

/-- C2: for a query of type AXFR or IXFR and every `K`, when the stream delivers
`K` well-formed frames in sequence and the next length read fails because the
read deadline elapsed, `SendQuery` returns, sends exactly `K` strings, the i-th
being the rendering of the i-th frame, and returns no error. -/
theorem SendQuery_zone_transfer_frames {Msg : Type} (c : Codec Msg) (stream : Stream)
    (query : Query) (dnssec recursion : Bool) (wire : List Nat)
    (frames : List (List Nat × Msg)) (tail : List Nat)
    (hq : query.Qtype = TypeAXFR ∨ query.Qtype = TypeIXFR)
    (hpack : c.pack query recursion dnssec = .ok wire) (hwrite : stream.writeErr = none)
    (hframes : ∀ f ∈ frames, f.1.length < 2 ^ 16 ∧ c.unpack f.1 = .ok f.2)
    (hin : stream.incoming = framesBytes (frames.map Prod.fst) ++ tail)
    (htail : tail.length < 2) (hend : stream.ending = StreamEnd.deadline) :
    SendQuery c (.ok stream) query dnssec recursion =
        some ⟨frames.map fun f => c.render f.2, none,
          some { stream with
            incoming := [], written := stream.written ++ bundle wire, closed := true }⟩ ∧
      (frames.map fun f => c.render f.2).length = frames.length := by
  refine ⟨?_, by simp⟩
  rw [SendQuery_then_no_length c stream query dnssec recursion wire frames tail
    (fun _ => isZoneTransfer_true _ hq) hpack hwrite hframes hin htail]
  simp [Stream.readFailure, hend, Cause.isDeadlineExceeded]

/-- An instance of C2: a zone transfer answered by two frames, then silence. -/
theorem SendQuery_zone_transfer_frames_witness :
    SendQuery demoCodec (.ok (idleAfter (framesBytes [[8], [9]]))) ⟨"example.com.", TypeAXFR⟩
          true true =
        some ⟨[demoCodec.render [8], demoCodec.render [9]], none,
          some { idleAfter (framesBytes [[8], [9]]) with
            incoming := []
            written := (idleAfter (framesBytes [[8], [9]])).written ++ bundle [12, 0, 252]
            closed := true }⟩ ∧
      [demoCodec.render [8], demoCodec.render [9]].length = 2 :=
  SendQuery_zone_transfer_frames demoCodec (idleAfter (framesBytes [[8], [9]]))
    ⟨"example.com.", TypeAXFR⟩ true true [12, 0, 252] [([8], [8]), ([9], [9])] []
    (Or.inl rfl) rfl rfl
    (by intro f hf; simp at hf; rcases hf with rfl | rfl <;> exact ⟨by decide, rfl⟩)
    (by decide) (by decide) rfl

/-- C4: for every query, when a length `n` is read successfully (after any run
of well-formed frames, which is empty unless the query is a zone transfer) but
fewer than `n` payload bytes arrive before the stream fails, by deadline or by
its end, `SendQuery` returns the error "read response payload" wrapping that
failure, has sent only the renderings of the earlier frames and nothing for
the short frame, and the goroutine reports the error as its last line. -/
theorem SendQuery_short_payload {Msg : Type} (c : Codec Msg) (stream : Stream) (query : Query)
    (dnssec recursion : Bool) (wire : List Nat) (frames : List (List Nat × Msg))
    (n : Nat) (part : List Nat)
    (hq : frames ≠ [] → query.Qtype = TypeAXFR ∨ query.Qtype = TypeIXFR)
    (hpack : c.pack query recursion dnssec = .ok wire) (hwrite : stream.writeErr = none)
    (hframes : ∀ f ∈ frames, f.1.length < 2 ^ 16 ∧ c.unpack f.1 = .ok f.2)
    (hn : n < 2 ^ 16) (hpart : part.length < n)
    (hin : stream.incoming =
      framesBytes (frames.map Prod.fst) ++ (BigEndianPutUint16 n ++ part)) :
    SendQuery c (.ok stream) query dnssec recursion =
        some ⟨frames.map fun f => c.render f.2,
          some (Errorf "read response payload"
            ({ stream with incoming := part } : Stream).readFailure),
          some { stream with
            incoming := [], written := stream.written ++ bundle wire, closed := true }⟩ ∧
      runLines ⟨frames.map fun f => c.render f.2,
          some (Errorf "read response payload"
            ({ stream with incoming := part } : Stream).readFailure),
          some { stream with
            incoming := [], written := stream.written ++ bundle wire, closed := true }⟩ =
        (frames.map fun f => c.render f.2) ++
          ["failed to send query: read response payload: " ++
            ({ stream with incoming := part } : Stream).readFailure.Error ++ "\n"] := by
  constructor
  · obtain ⟨k, hk⟩ := SendQuery_frames c stream query dnssec recursion wire frames
      (BigEndianPutUint16 n ++ part) (fun h => isZoneTransfer_true _ (hq h)) hpack hwrite
      hframes hin
    have h := readLoop_short_payload c query.Qtype k
      { stream with written := stream.written ++ bundle wire, closed := true }
      (frames.map fun f => c.render f.2) n part hn hpart
    rw [hk]
    simpa [Stream.readFailure] using h
  · simp only [runLines, WrappedError.Error, Errorf]
    rw [← String.append_assoc, ← String.append_assoc]
    rfl

/-- An instance of C4: a length of 5 followed by two bytes and the deadline. -/
theorem SendQuery_short_payload_witness :
    SendQuery demoCodec (.ok (idleAfter (BigEndianPutUint16 5 ++ [1, 2]))) ⟨"example.com.", 1⟩
          true true =
        some ⟨([] : List (List Nat × List Nat)).map fun f => demoCodec.render f.2,
          some (Errorf "read response payload"
            ({ idleAfter (BigEndianPutUint16 5 ++ [1, 2]) with incoming := [1, 2] } :
              Stream).readFailure),
          some { idleAfter (BigEndianPutUint16 5 ++ [1, 2]) with
            incoming := []
            written := (idleAfter (BigEndianPutUint16 5 ++ [1, 2])).written ++ bundle [12, 0, 1]
            closed := true }⟩ ∧
      runLines ⟨([] : List (List Nat × List Nat)).map fun f => demoCodec.render f.2,
          some (Errorf "read response payload"
            ({ idleAfter (BigEndianPutUint16 5 ++ [1, 2]) with incoming := [1, 2] } :
              Stream).readFailure),
          some { idleAfter (BigEndianPutUint16 5 ++ [1, 2]) with
            incoming := []
            written := (idleAfter (BigEndianPutUint16 5 ++ [1, 2])).written ++ bundle [12, 0, 1]
            closed := true }⟩ =
        (([] : List (List Nat × List Nat)).map fun f => demoCodec.render f.2) ++
          ["failed to send query: read response payload: " ++
            ({ idleAfter (BigEndianPutUint16 5 ++ [1, 2]) with incoming := [1, 2] } :
              Stream).readFailure.Error ++ "\n"] :=
  SendQuery_short_payload demoCodec (idleAfter (BigEndianPutUint16 5 ++ [1, 2]))
    ⟨"example.com.", 1⟩ true true [12, 0, 1] [] 5 [1, 2]
    (fun h => absurd rfl h) rfl rfl (by intro f hf; simp at hf) (by decide) (by decide) rfl

/-- C5: for every query of any type, when a read of the 2-byte length fails
because the read deadline elapsed (after any run of well-formed frames, which
is empty unless the query is a zone transfer), `SendQuery` returns no error
and sends nothing for that read, and the goroutine adds no error line; with no
frame at all the run produces no line. -/
theorem SendQuery_deadline_is_completion {Msg : Type} (c : Codec Msg) (stream : Stream)
    (query : Query) (dnssec recursion : Bool) (wire : List Nat)
    (frames : List (List Nat × Msg)) (tail : List Nat)
    (hq : frames ≠ [] → query.Qtype = TypeAXFR ∨ query.Qtype = TypeIXFR)
    (hpack : c.pack query recursion dnssec = .ok wire) (hwrite : stream.writeErr = none)
    (hframes : ∀ f ∈ frames, f.1.length < 2 ^ 16 ∧ c.unpack f.1 = .ok f.2)
    (hin : stream.incoming = framesBytes (frames.map Prod.fst) ++ tail)
    (htail : tail.length < 2) (hend : stream.ending = StreamEnd.deadline) :
    ∃ r, SendQuery c (.ok stream) query dnssec recursion = some r ∧
      r.out = (frames.map fun f => c.render f.2) ∧ r.err = none ∧
      runLines r = (frames.map fun f => c.render f.2) ∧
      (frames = [] → runLines r = []) := by
  refine ⟨⟨frames.map fun f => c.render f.2, none,
    some { stream with
      incoming := [], written := stream.written ++ bundle wire, closed := true }⟩, ?_, rfl, rfl,
    by simp [runLines], by intro h; simp [runLines, h]⟩
  rw [SendQuery_then_no_length c stream query dnssec recursion wire frames tail
    (fun h => isZoneTransfer_true _ (hq h)) hpack hwrite hframes hin htail]
  simp [Stream.readFailure, hend, Cause.isDeadlineExceeded]

/-- An instance of C5: the server never answers. -/
theorem SendQuery_deadline_is_completion_witness :
    ∃ r, SendQuery demoCodec (.ok (idleAfter [])) ⟨"example.com.", 1⟩ true true = some r ∧
      r.out = (([] : List (List Nat × List Nat)).map fun f => demoCodec.render f.2) ∧
      r.err = none ∧
      runLines r = (([] : List (List Nat × List Nat)).map fun f => demoCodec.render f.2) ∧
      (([] : List (List Nat × List Nat)) = [] → runLines r = []) :=
  SendQuery_deadline_is_completion demoCodec (idleAfter []) ⟨"example.com.", 1⟩ true true
    [12, 0, 1] [] [] (fun h => absurd rfl h) rfl rfl (by intro f hf; simp at hf) rfl
    (by decide) rfl

/-- C10: a query of type AXFR or IXFR returns without error only when a length
read fails with deadline-exceeded: every run that returns no error was given
a stream that opened, whose bytes are a run of frames (two length bytes that
read as the length of a payload that decodes) followed by fewer than two
bytes, the strings sent are the renderings of those frames, and the length
read on the remaining bytes fails with deadline-exceeded.  When instead the
peer finishes the stream cleanly after `K` well-formed frames, `SendQuery`
sends the `K` renderings and returns the error "read response length: EOF",
so the goroutine sends one error line after the `K` results. -/
theorem SendQuery_zone_transfer_end_of_stream {Msg : Type} (c : Codec Msg) (stream : Stream)
    (query : Query) (dnssec recursion : Bool) (wire : List Nat)
    (frames : List (List Nat × Msg))
    (hq : query.Qtype = TypeAXFR ∨ query.Qtype = TypeIXFR)
    (hpack : c.pack query recursion dnssec = .ok wire) (hwrite : stream.writeErr = none)
    (hframes : ∀ f ∈ frames, f.1.length < 2 ^ 16 ∧ c.unpack f.1 = .ok f.2)
    (hin : stream.incoming = framesBytes (frames.map Prod.fst))
    (hend : stream.ending = StreamEnd.fin) :
    SendQuery c (.ok stream) query dnssec recursion =
        some ⟨frames.map fun f => c.render f.2, some (Errorf "read response length" Cause.EOF),
          some { stream with
            incoming := [], written := stream.written ++ bundle wire, closed := true }⟩ ∧
      runLines ⟨frames.map fun f => c.render f.2,
          some (Errorf "read response length" Cause.EOF),
          some { stream with
            incoming := [], written := stream.written ++ bundle wire, closed := true }⟩ =
        (frames.map fun f => c.render f.2) ++
          ["failed to send query: read response length: EOF\n"] ∧
      ∀ (opened : Except Cause Stream) (r : RunResult),
        SendQuery c opened query dnssec recursion = some r → r.err = none →
        ∃ (st : Stream) (got : List (List Nat × List Nat × Msg)) (tail : List Nat),
          opened = .ok st ∧ st.writeErr = none ∧
          st.incoming = (got.map fun f => f.1 ++ f.2.1).flatten ++ tail ∧
          (∀ f ∈ got, f.1.length = 2 ∧ BigEndianUint16 f.1 = f.2.1.length ∧
            c.unpack f.2.1 = .ok f.2.2) ∧
          r.out = (got.map fun f => c.render f.2.2) ∧
          tail.length < 2 ∧ st.ending = StreamEnd.deadline ∧
          binaryReadUint16
              { st with
                incoming := tail, written := st.written ++ bundle wire, closed := true } =
            (.error Cause.ErrDeadlineExceeded,
              { st with
                incoming := [], written := st.written ++ bundle wire, closed := true }) ∧
          r.stream = some { st with
            incoming := [], written := st.written ++ bundle wire, closed := true } := by
  refine ⟨?_, ?_, ?_⟩
  · rw [SendQuery_then_no_length c stream query dnssec recursion wire frames []
      (fun _ => isZoneTransfer_true _ hq) hpack hwrite hframes (by simpa using hin) (by simp)]
    simp [Stream.readFailure, hend, Cause.isDeadlineExceeded]
  · simp only [runLines, WrappedError.Error, Errorf, Cause.Error]
    rfl
  · intro opened r h hr
    cases opened with
    | error e => simp [SendQuery] at h; subst h; simp at hr
    | ok st =>
      cases hw : st.writeErr with
      | some e =>
        simp only [SendQuery, hpack, Stream.Write, hw, Option.some.injEq] at h
        subst h
        simp at hr
      | none =>
        rw [SendQuery_sent c st query dnssec recursion wire hpack hw] at h
        obtain ⟨got, tail, hin1, hgot, hout, htail, hend1, hstream⟩ :=
          readLoop_zone_success c query.Qtype (isZoneTransfer_true _ hq) _ _ _ r h hr
        refine ⟨st, got, tail, rfl, hw, hin1, hgot, by simpa using hout, htail, hend1, ?_,
          hstream⟩
        have hs := binaryReadUint16_short
          { st with incoming := tail, written := st.written ++ bundle wire, closed := true }
          htail
        have hend2 : st.ending = StreamEnd.deadline := hend1
        rw [hs]
        simp [Stream.readFailure, hend2]

/-- An instance of C10: a zone transfer answered by two frames, then the end of the stream. -/
theorem SendQuery_zone_transfer_end_of_stream_witness :
    SendQuery demoCodec (.ok (finishedAfter (framesBytes [[8], [9]])))
          ⟨"example.com.", TypeAXFR⟩ true true =
        some ⟨[demoCodec.render [8], demoCodec.render [9]],
          some (Errorf "read response length" Cause.EOF),
          some { finishedAfter (framesBytes [[8], [9]]) with
            incoming := []
            written := (finishedAfter (framesBytes [[8], [9]])).written ++ bundle [12, 0, 252]
            closed := true }⟩ ∧
      runLines ⟨[demoCodec.render [8], demoCodec.render [9]],
          some (Errorf "read response length" Cause.EOF),
          some { finishedAfter (framesBytes [[8], [9]]) with
            incoming := []
            written := (finishedAfter (framesBytes [[8], [9]])).written ++ bundle [12, 0, 252]
            closed := true }⟩ =
        [demoCodec.render [8], demoCodec.render [9]] ++
          ["failed to send query: read response length: EOF\n"] ∧
      ∀ (opened : Except Cause Stream) (r : RunResult),
        SendQuery demoCodec opened ⟨"example.com.", TypeAXFR⟩ true true = some r →
        r.err = none →
        ∃ (st : Stream) (got : List (List Nat × List Nat × List Nat)) (tail : List Nat),
          opened = .ok st ∧ st.writeErr = none ∧
          st.incoming = (got.map fun f => f.1 ++ f.2.1).flatten ++ tail ∧
          (∀ f ∈ got, f.1.length = 2 ∧ BigEndianUint16 f.1 = f.2.1.length ∧
            demoCodec.unpack f.2.1 = .ok f.2.2) ∧
          r.out = (got.map fun f => demoCodec.render f.2.2) ∧
          tail.length < 2 ∧ st.ending = StreamEnd.deadline ∧
          binaryReadUint16
              { st with
                incoming := tail, written := st.written ++ bundle [12, 0, 252],
                closed := true } =
            (.error Cause.ErrDeadlineExceeded,
              { st with
                incoming := [], written := st.written ++ bundle [12, 0, 252],
                closed := true }) ∧
          r.stream = some { st with
            incoming := [], written := st.written ++ bundle [12, 0, 252], closed := true } :=
  SendQuery_zone_transfer_end_of_stream demoCodec (finishedAfter (framesBytes [[8], [9]]))
    ⟨"example.com.", TypeAXFR⟩ true true [12, 0, 252] [([8], [8]), ([9], [9])]
    (Or.inl rfl) rfl rfl
    (by intro f hf; simp at hf; rcases hf with rfl | rfl <;> exact ⟨by decide, rfl⟩)
    rfl rfl

/-! ## The request frame -/

/-- With no answer before the deadline, a run whose query packs and whose
write succeeds has written the bundle and returns without output. -/
theorem SendQuery_unanswered {Msg : Type} (c : Codec Msg) (query : Query)
    (dnssec recursion : Bool) (wire : List Nat)
    (hpack : c.pack query recursion dnssec = .ok wire) :
    SendQuery c (.ok (idleAfter [])) query dnssec recursion =
      some ⟨[], none, some { idleAfter [] with written := bundle wire, closed := true }⟩ := by
  rw [SendQuery_then_no_length c (idleAfter []) query dnssec recursion wire [] []
    (fun h => absurd rfl h) hpack rfl (by intro f hf; simp at hf) rfl (by decide)]
  simp [idleAfter, Stream.readFailure, Cause.isDeadlineExceeded]

/-- The length field of the bundle of a 65536-byte payload reads as zero. -/
theorem bundle_length_field_wraps (wire : List Nat) (h : wire.length = 65536) :
    BigEndianUint16 ((bundle wire).take 2) = 0 := by
  simp [bundle, h, BigEndianPutUint16, BigEndianUint16]

/-- C3 fails for a payload of 65536 bytes: the two length bytes written read
as 0, not as the length of the payload. -/
theorem SendQuery_bundle_length_wraps :
    ∃ r s, bigCodec.pack ⟨"example.com.", 1⟩ true true = .ok (List.replicate 65536 0) ∧
      SendQuery bigCodec (.ok (idleAfter [])) ⟨"example.com.", 1⟩ true true = some r ∧
      r.stream = some s ∧ s.written = bundle (List.replicate 65536 0) ∧
      ¬ BigEndianUint16 (s.written.take 2) = (List.replicate 65536 0).length := by
  refine ⟨_, _, rfl,
    SendQuery_unanswered bigCodec ⟨"example.com.", 1⟩ true true (List.replicate 65536 0) rfl,
    rfl, rfl, ?_⟩
  show ¬ BigEndianUint16 ((bundle (List.replicate 65536 0)).take 2) =
    (List.replicate 65536 0).length
  rw [bundle_length_field_wraps _ (List.length_replicate _ _), List.length_replicate]
  decide

/-- C3 (amended): for every payload `wire` of fewer than 65536 bytes that
`SendQuery` frames, the run returns, the bytes it wrote to the stream are the
bundle, the bundle is `2 + len(wire)` bytes long, its bytes after the first
two are `wire` unchanged, and its first two bytes read as a big-endian 16-bit
integer equal `len(wire)`. -/
theorem SendQuery_writes_bundle {Msg : Type} (c : Codec Msg) (stream : Stream) (query : Query)
    (dnssec recursion : Bool) (wire : List Nat)
    (hpack : c.pack query recursion dnssec = .ok wire) (hwrite : stream.writeErr = none)
    (hlen : wire.length < 2 ^ 16) :
    ∃ r s, SendQuery c (.ok stream) query dnssec recursion = some r ∧ r.stream = some s ∧
      s.written = stream.written ++ bundle wire ∧
      (bundle wire).length = 2 + wire.length ∧
      (bundle wire).drop 2 = wire ∧
      BigEndianUint16 ((bundle wire).take 2) = wire.length := by
  have hs := SendQuery_sent c stream query dnssec recursion wire hpack hwrite
  have hret := readLoop_returns c query.Qtype (stream.incoming.length + 1)
    { stream with written := stream.written ++ bundle wire, closed := true } []
    (by simp)
  obtain ⟨r, hr⟩ := Option.isSome_iff_exists.mp hret
  obtain ⟨s1, h1, h2, _⟩ := readLoop_stream c query.Qtype _ _ _ r hr
  refine ⟨r, s1, by rw [hs, hr], h1, by simpa using h2, ?_, ?_, ?_⟩
  · simp [bundle, BigEndianPutUint16]; omega
  · simp [bundle, BigEndianPutUint16]
  · have hv := BigEndianUint16_PutUint16 wire.length hlen
    have hmod : wire.length % 2 ^ 16 = wire.length := Nat.mod_eq_of_lt hlen
    simp only [bundle, hmod]
    simpa [BigEndianPutUint16] using hv

/-- An instance of C3 (amended): a three-byte payload. -/
theorem SendQuery_writes_bundle_witness :
    ∃ r s, SendQuery demoCodec (.ok (idleAfter [])) ⟨"example.com.", 1⟩ true true = some r ∧
      r.stream = some s ∧
      s.written = (idleAfter []).written ++ bundle [12, 0, 1] ∧
      (bundle [12, 0, 1]).length = 2 + [12, 0, 1].length ∧
      (bundle [12, 0, 1]).drop 2 = [12, 0, 1] ∧
      BigEndianUint16 ((bundle [12, 0, 1]).take 2) = [12, 0, 1].length :=
  SendQuery_writes_bundle demoCodec (idleAfter []) ⟨"example.com.", 1⟩ true true [12, 0, 1]
    rfl rfl (by decide)

/-! ## Arguments of `main2` -/

/-- C7: for every list of positional arguments that is empty or of odd length,
whatever the tokens, flags, world and schedule, `main2` prints the usage
message and returns 1, and that is its only effect: nothing is parsed or
written to standard error, no file is opened, the server is not dialled and no
line is printed. -/
theorem main2_usage {Msg : Type} (w : World Msg) (f : Flags) (args : List String)
    (sched : List Tid) (h : args = [] ∨ args.length % 2 = 1) :
    main2 w f args sched = some (Outcome.exited 1, [Event.usage]) := by
  have hc : args.length = 0 ∨ args.length % 2 ≠ 0 := by
    rcases h with h | h
    · left; simp [h]
    · right; omega
  unfold main2
  rw [if_pos hc]

/-- An instance of C7: a single positional argument. -/
theorem main2_usage_witness :
    main2 demoWorld defaultFlags ["example.com."] [] = some (Outcome.exited 1, [Event.usage]) :=
  main2_usage demoWorld defaultFlags ["example.com."] [] (Or.inr rfl)

/-- The loop over the arguments appends the queries of the specification when
every type mnemonic is recognised. -/
theorem parseQueries_recognised (S : String → Option Nat) (F : String → String) :
    ∀ (args : List String) (queries : List Query) (ev : List Event),
      (∀ p ∈ pairs args, (S p.2).isSome = true) →
      (parseQueries S F args queries ev).1 = some (queries ++ specQueries S F args) := by
  intro args
  induction args using pairs.induct with
  | case1 name ty rest ih =>
    intro queries ev h
    have hty := h (name, ty) (by simp [pairs])
    have hrest : ∀ p ∈ pairs rest, (S p.2).isSome = true :=
      fun p hp => h p (by simp [pairs, hp])
    obtain ⟨qtype, hq⟩ := Option.isSome_iff_exists.mp hty
    simp only at hq
    by_cases hx : qtype = TypeIXFR
    · simp [parseQueries, specQueries, pairs, hq, hx, ih _ _ hrest]
    · simp [parseQueries, specQueries, pairs, hq, hx, ih _ _ hrest]
  | case2 args hne =>
    intro queries ev _
    have hp : pairs args = [] := by
      unfold pairs
      split
      · exact absurd rfl (hne _ _ _)
      · rfl
    have hq : parseQueries S F args queries ev = (some queries, ev) := by
      unfold parseQueries
      split
      · exact absurd rfl (hne _ _ _)
      · rfl
    simp [hq, specQueries, hp]

/-- C8: for every non-empty even-length list of positional arguments in which
every type mnemonic is recognised, the loop of `main2` builds exactly the query
set of the specification, the (name, type) pairs in input order with the name
made fully qualified and the IXFR pairs left out, and `main2` goes on with that
set; no query of the set has type IXFR and every pair of another type is in it. -/
theorem main2_query_set {Msg : Type} (w : World Msg) (f : Flags) (args : List String)
    (sched : List Tid) (hne : args ≠ []) (heven : args.length % 2 = 0)
    (hrec : ∀ p ∈ pairs args, (w.StringToType p.2).isSome = true) :
    (parseQueries w.StringToType w.Fqdn args [] []).1 =
        some (specQueries w.StringToType w.Fqdn args) ∧
      main2 w f args sched =
        connectAndDispatch w f (specQueries w.StringToType w.Fqdn args)
          (parseQueries w.StringToType w.Fqdn args [] []).2 sched ∧
      (∀ q ∈ specQueries w.StringToType w.Fqdn args, q.Qtype ≠ TypeIXFR) ∧
      ∀ p ∈ pairs args, ∀ qtype, w.StringToType p.2 = some qtype → qtype ≠ TypeIXFR →
        (⟨w.Fqdn p.1, qtype⟩ : Query) ∈ specQueries w.StringToType w.Fqdn args := by
  have hp := parseQueries_recognised w.StringToType w.Fqdn args [] [] hrec
  simp only [List.nil_append] at hp
  refine ⟨hp, ?_, ?_, ?_⟩
  · have hc : ¬ (args.length = 0 ∨ args.length % 2 ≠ 0) := by
      have : args.length ≠ 0 := fun h => hne (List.length_eq_zero.mp h)
      omega
    unfold main2
    rw [if_neg hc]
    rcases hpq : parseQueries w.StringToType w.Fqdn args [] [] with ⟨res, ev⟩
    rw [hpq] at hp
    simp only at hp
    subst hp
    rfl
  · intro q hq
    simp only [specQueries, List.mem_filterMap] at hq
    obtain ⟨p, _, hp2⟩ := hq
    split at hp2
    · split at hp2
      · simp at hp2
      · simp at hp2; subst hp2; assumption
    · simp at hp2
  · intro p hp qtype hq hx
    simp only [specQueries, List.mem_filterMap]
    exact ⟨p, hp, by simp [hq, hx]⟩

/-- An instance of C8: three pairs, the middle one of type IXFR. -/
theorem main2_query_set_witness :
    (parseQueries demoWorld.StringToType demoWorld.Fqdn
          ["example.com", "A", "example.org", "IXFR", "example.net", "AXFR"] [] []).1 =
        some (specQueries demoWorld.StringToType demoWorld.Fqdn
          ["example.com", "A", "example.org", "IXFR", "example.net", "AXFR"]) ∧
      main2 demoWorld defaultFlags
          ["example.com", "A", "example.org", "IXFR", "example.net", "AXFR"] [] =
        connectAndDispatch demoWorld defaultFlags
          (specQueries demoWorld.StringToType demoWorld.Fqdn
            ["example.com", "A", "example.org", "IXFR", "example.net", "AXFR"])
          (parseQueries demoWorld.StringToType demoWorld.Fqdn
            ["example.com", "A", "example.org", "IXFR", "example.net", "AXFR"] [] []).2 [] ∧
      (∀ q ∈ specQueries demoWorld.StringToType demoWorld.Fqdn
          ["example.com", "A", "example.org", "IXFR", "example.net", "AXFR"],
        q.Qtype ≠ TypeIXFR) ∧
      ∀ p ∈ pairs ["example.com", "A", "example.org", "IXFR", "example.net", "AXFR"],
        ∀ qtype, demoWorld.StringToType p.2 = some qtype → qtype ≠ TypeIXFR →
          (⟨demoWorld.Fqdn p.1, qtype⟩ : Query) ∈
            specQueries demoWorld.StringToType demoWorld.Fqdn
              ["example.com", "A", "example.org", "IXFR", "example.net", "AXFR"] :=
  main2_query_set demoWorld defaultFlags
    ["example.com", "A", "example.org", "IXFR", "example.net", "AXFR"] []
    (by simp) (by decide)
    (by
      intro p hp
      simp [pairs] at hp
      rcases hp with rfl | rfl | rfl <;> simp [demoWorld])

/-! ## The dispatcher -/

theorem split_at_index {α : Type} :
    ∀ (ws : List α) (i : Nat) (w : α), ws[i]? = some w →
      ∃ pre post, ws = pre ++ w :: post ∧ pre.length = i := by
  intro ws
  induction ws with
  | nil => intro i w h; simp at h
  | cons a ws ih =>
    intro i w h
    cases i with
    | zero =>
      simp at h
      exact ⟨[], ws, by simp [h], rfl⟩
    | succ i =>
      simp at h
      obtain ⟨pre, post, h1, h2⟩ := ih i w h
      exact ⟨a :: pre, post, by simp [h1], by simp [h2]⟩

theorem set_split {α : Type} (pre post : List α) (w v : α) :
    (pre ++ w :: post).set pre.length v = pre ++ v :: post := by
  induction pre with
  | nil => simp
  | cons a pre ih => simp [ih]

theorem getElem?_split {α : Type} (pre post : List α) (w : α) :
    (pre ++ w :: post)[pre.length]? = some w := by
  induction pre with
  | nil => simp
  | cons a pre ih => simpa using ih

theorem pendingLines_split (pre post : List Worker) (w : Worker) :
    pendingLines (pre ++ w :: post) = pendingLines pre ++ (w.pending ++ pendingLines post) := by
  simp [pendingLines]

theorem notDone_split (pre post : List Worker) (w : Worker) :
    notDone (pre ++ w :: post) =
      notDone pre + ((if w.done then 0 else 1) + notDone post) := by
  cases hd : w.done <;> simp [notDone, List.filter_cons, hd]
  omega

theorem notDone_zero (ws : List Worker) (h : notDone ws = 0) : ∀ w ∈ ws, w.done = true := by
  intro w hw
  obtain ⟨pre, post, rfl⟩ := List.append_of_mem hw
  rw [notDone_split] at h
  cases hd : w.done
  · simp [hd] at h
  · rfl

theorem pendingLines_done (ws : List Worker)
    (h : ∀ w ∈ ws, w.done = true ∧ w.pending = []) : pendingLines ws = [] := by
  induction ws with
  | nil => simp [pendingLines]
  | cons w ws ih =>
    have hw := h w (List.mem_cons_self _ _)
    have := ih (fun v hv => h v (List.mem_cons_of_mem _ hv))
    simp [pendingLines] at this ⊢
    exact ⟨hw.2, this⟩

/-- A send by a goroutine that is still running, on the open channel. -/
theorem step_send (st : Dispatch) (pre post : List Worker) (w : Worker) (l : String)
    (rest : List String) (hws : st.workers = pre ++ w :: post)
    (hret : st.returned = false) (hpan : st.panicked = false) (hdone : w.done = false)
    (hpend : w.pending = l :: rest) (hclosed : st.closed = false) :
    step st (Tid.worker pre.length) =
      { st with workers := pre ++ ⟨rest, false⟩ :: post, printed := st.printed ++ [l] } := by
  have hget := getElem?_split pre post w
  have hset := set_split pre post w ⟨rest, false⟩
  simp only [step, hret, hpan, hws, hget, hdone, hpend, hclosed, hset]
  simp

/-- The call of `wg.Done()` by a goroutine that has sent all its strings. -/
theorem step_done (st : Dispatch) (pre post : List Worker) (w : Worker)
    (hws : st.workers = pre ++ w :: post)
    (hret : st.returned = false) (hpan : st.panicked = false) (hdone : w.done = false)
    (hpend : w.pending = []) (hcount : 0 < st.counter) :
    step st (Tid.worker pre.length) =
      { st with workers := pre ++ ⟨[], true⟩ :: post, counter := st.counter - 1 } := by
  have hget := getElem?_split pre post w
  have hset := set_split pre post w ⟨[], true⟩
  have hc : ¬ st.counter - 1 < 0 := by omega
  simp only [step, hret, hpan, hws, hget, hdone, hpend, hset]
  simp [hc]

/-- A goroutine that has not called `wg.Done()` keeps the counter positive and
the channel open. -/
theorem running_open (lines : List (List String)) (st : Dispatch) (h : Inv lines st)
    (pre post : List Worker) (w : Worker) (hws : st.workers = pre ++ w :: post)
    (hdone : w.done = false) : 0 < st.counter ∧ st.closed = false := by
  have hc : 0 < st.counter := by
    rw [h.counter_eq, hws, notDone_split, hdone]
    simp
    omega
  refine ⟨hc, ?_⟩
  cases hcl : st.closed
  · rfl
  · have := h.waited_zero (h.closed_waited hcl)
    omega

theorem step_inv (lines : List (List String)) (st : Dispatch) (t : Tid) (h : Inv lines st) :
    Inv lines (step st t) := by
  cases t with
  | worker i =>
    cases hret : st.returned
    case true => simpa [step, hret] using h
    cases hget : st.workers[i]? with
    | none => simpa [step, hret, h.noPanic, hget] using h
    | some w =>
      obtain ⟨pre, post, hws, rfl⟩ := split_at_index st.workers i w hget
      cases hdone : w.done
      case true => simpa [step, hret, h.noPanic, hget, hdone] using h
      obtain ⟨hcount, hclosed⟩ := running_open lines st h pre post w hws hdone
      have hmem : ∀ v ∈ pre ++ post, v ∈ st.workers := by
        intro v hv
        rw [hws]
        simp only [List.mem_append, List.mem_cons] at hv ⊢
        tauto
      have hkept := h.lines_kept
      have hcnt := h.counter_eq
      have hlen := h.workers_length
      rw [hws] at hkept hcnt hlen
      rw [pendingLines_split] at hkept
      rw [notDone_split, hdone] at hcnt
      cases hpend : w.pending with
      | nil =>
        rw [step_done st pre post w hws hret h.noPanic hdone hpend hcount]
        refine ⟨h.noPanic, ?_, ?_, ?_, h.closed_waited, h.returned_closed, ?_, ?_⟩
        · simp only [notDone_split]
          simp at hcnt ⊢
          omega
        · intro v hv hd
          simp only [List.mem_append, List.mem_cons] at hv
          rcases hv with hv | rfl | hv
          · exact h.done_last v (hmem v (by simp [hv])) hd
          · rfl
          · exact h.done_last v (hmem v (by simp [hv])) hd
        · intro hw
          have := h.waited_zero hw
          omega
        · simp only [pendingLines_split]
          rw [hpend] at hkept
          exact hkept
        · simpa using hlen
      | cons l rest =>
        rw [step_send st pre post w l rest hws hret h.noPanic hdone hpend hclosed]
        refine ⟨h.noPanic, ?_, ?_, h.waited_zero, h.closed_waited, h.returned_closed, ?_, ?_⟩
        · simp only [notDone_split]
          simpa using hcnt
        · intro v hv hd
          simp only [List.mem_append, List.mem_cons] at hv
          rcases hv with hv | rfl | hv
          · exact h.done_last v (hmem v (by simp [hv])) hd
          · simp at hd
          · exact h.done_last v (hmem v (by simp [hv])) hd
        · simp only [pendingLines_split]
          rw [hpend] at hkept
          refine List.Perm.trans ?_ hkept
          rw [List.append_assoc]
          apply List.Perm.append_left
          simpa using
            (@List.perm_middle _ l (pendingLines pre) (rest ++ pendingLines post)).symm
        · simpa using hlen
  | closer =>
    unfold step
    simp only
    split
    · exact h
    · split
      · split
        · rename_i hz
          exact ⟨h.noPanic, h.counter_eq, h.done_last, fun _ => by simpa using hz,
            fun hc => by
              have := h.closed_waited hc
              simp_all,
            h.returned_closed, h.lines_kept, h.workers_length⟩
        · exact h
      · split
        · rename_i hw _
          exact ⟨h.noPanic, h.counter_eq, h.done_last, h.waited_zero,
            fun _ => by simpa using hw, fun _ => rfl, h.lines_kept, h.workers_length⟩
        · exact h
  | main =>
    unfold step
    simp only
    split
    · exact h
    · split
      · rename_i hc
        exact ⟨h.noPanic, h.counter_eq, h.done_last, h.waited_zero, h.closed_waited,
          fun _ => hc, h.lines_kept, h.workers_length⟩
      · exact h

theorem run_inv (lines : List (List String)) (sched : List Tid) :
    ∀ st, Inv lines st → Inv lines (run sched st) := by
  induction sched with
  | nil => intro st h; exact h
  | cons t sched ih => intro st h; exact ih _ (step_inv lines st t h)

theorem notDone_init (lines : List (List String)) :
    notDone (lines.map fun l => (⟨l, false⟩ : Worker)) = lines.length := by
  induction lines with
  | nil => rfl
  | cons l lines ih =>
    simp only [notDone, List.map_cons, List.length_cons] at ih ⊢
    simp [List.filter_cons, ih]

theorem init_inv (lines : List (List String)) : Inv lines (Dispatch.init lines) := by
  refine ⟨rfl, ?_, ?_, ?_, ?_, ?_, ?_, ?_⟩
  · simp only [Dispatch.init, notDone_init]
  · intro w hw hd
    simp [Dispatch.init] at hw
    obtain ⟨l, _, rfl⟩ := hw
    simp at hd
  · intro hw; simp [Dispatch.init] at hw
  · intro hc; simp [Dispatch.init] at hc
  · intro hr; simp [Dispatch.init] at hr
  · simp [Dispatch.init, pendingLines, Function.comp_def]
  · simp [Dispatch.init]

theorem run_append (a b : List Tid) (st : Dispatch) : run (a ++ b) st = run b (run a st) := by
  simp [run, List.foldl_append]

theorem notDone_all_done (ws : List Worker) (h : ∀ w ∈ ws, w.done = true) : notDone ws = 0 := by
  induction ws with
  | nil => rfl
  | cons w ws ih =>
    have hw := h w (List.mem_cons_self _ _)
    have := ih (fun v hv => h v (List.mem_cons_of_mem _ hv))
    simp only [notDone] at this ⊢
    simp [List.filter_cons, hw, this]

/-- Scheduled alone for one step more than it has strings to send, a goroutine
sends them all and calls `wg.Done()`. -/
theorem run_finishWorker (lines : List (List String)) :
    ∀ (n : Nat) (st : Dispatch) (pre ws : List Worker) (w : Worker),
      st.workers = pre ++ w :: ws → w.pending.length = n → Inv lines st →
      st.returned = false →
      ∃ v, (run (finishWorker pre.length n) st).workers = pre ++ v :: ws ∧ v.done = true ∧
        Inv lines (run (finishWorker pre.length n) st) ∧
        (run (finishWorker pre.length n) st).returned = false := by
  intro n
  induction n with
  | zero =>
    intro st pre ws w hws hlen h hret
    have hpend : w.pending = [] := List.length_eq_zero.mp hlen
    have hrun : run (finishWorker pre.length 0) st = step st (Tid.worker pre.length) := rfl
    rw [hrun]
    cases hdone : w.done
    · obtain ⟨hcount, _⟩ := running_open lines st h pre ws w hws hdone
      have hs := step_done st pre ws w hws hret h.noPanic hdone hpend hcount
      refine ⟨⟨[], true⟩, ?_, rfl, step_inv lines st _ h, ?_⟩
      · rw [hs]
      · rw [hs]; exact hret
    · have hget := getElem?_split pre ws w
      have hs : step st (Tid.worker pre.length) = st := by
        simp [step, hret, h.noPanic, hws, hget, hdone]
      rw [hs]
      exact ⟨w, hws, hdone, h, hret⟩
  | succ n ih =>
    intro st pre ws w hws hlen h hret
    obtain ⟨l, rest, hpend⟩ : ∃ l rest, w.pending = l :: rest := by
      cases hp : w.pending with
      | nil => rw [hp] at hlen; simp at hlen
      | cons l rest => exact ⟨l, rest, rfl⟩
    have hdone : w.done = false := by
      cases hd : w.done
      · rfl
      · have := h.done_last w (by rw [hws]; simp) hd
        rw [this] at hpend
        simp at hpend
    obtain ⟨_, hclosed⟩ := running_open lines st h pre ws w hws hdone
    have hs := step_send st pre ws w l rest hws hret h.noPanic hdone hpend hclosed
    have hrun : run (finishWorker pre.length (n + 1)) st =
        run (finishWorker pre.length n) (step st (Tid.worker pre.length)) := rfl
    rw [hrun]
    have hinv := step_inv lines st (Tid.worker pre.length) h
    have hrest : rest.length = n := by
      rw [hpend] at hlen
      simpa using hlen
    exact ih (step st (Tid.worker pre.length)) pre ws ⟨rest, false⟩ (by rw [hs]) hrest hinv
      (by rw [hs]; exact hret)

/-- From any state of the invariant in which `main2` has not returned, the
schedule `finishFrom` brings `main2` to return. -/
theorem run_finishFrom (lines : List (List String)) :
    ∀ (ws pre : List Worker) (st : Dispatch),
      st.workers = pre ++ ws → (∀ w ∈ pre, w.done = true) → Inv lines st →
      st.returned = false → (run (finishFrom pre.length ws) st).returned = true := by
  intro ws
  induction ws with
  | nil =>
    intro pre st hws hpre h hret
    have hzero : st.counter = 0 := by
      rw [h.counter_eq, hws, List.append_nil, notDone_all_done pre hpre]
      rfl
    have hpan := h.noPanic
    cases hw : st.waited <;> cases hc : st.closed <;>
      simp [finishFrom, run, step, hret, hpan, hzero, hw, hc]
  | cons w ws ih =>
    intro pre st hws hpre h hret
    obtain ⟨v, hv1, hv2, hv3, hv4⟩ :=
      run_finishWorker lines w.pending.length st pre ws w hws rfl h hret
    have hrun : run (finishFrom pre.length (w :: ws)) st =
        run (finishFrom (pre ++ [v]).length ws) (run (finishWorker pre.length w.pending.length) st) := by
      simp only [finishFrom, run_append, List.length_append, List.length_singleton]
    rw [hrun]
    apply ih (pre ++ [v]) _ (by rw [hv1]; simp) _ hv3 hv4
    intro u hu
    simp only [List.mem_append, List.mem_singleton] at hu
    rcases hu with hu | rfl
    · exact hpre u hu
    · exact hv2

/-- No deadlock: every schedule can be extended so that `main2` returns. -/
theorem run_can_finish (lines : List (List String)) (sched : List Tid) :
    ∃ more, (run (sched ++ more) (Dispatch.init lines)).returned = true := by
  have h := run_inv lines sched _ (init_inv lines)
  cases hret : (run sched (Dispatch.init lines)).returned
  · refine ⟨finishFrom 0 (run sched (Dispatch.init lines)).workers, ?_⟩
    rw [run_append]
    exact run_finishFrom lines _ [] _ rfl (by simp) h hret
  · exact ⟨[], by simpa using hret⟩

/-- Once the channel is closed every goroutine has sent its strings and
called `wg.Done()`, and what was printed is what the runs sent. -/
theorem closed_all_done (lines : List (List String)) (st : Dispatch) (h : Inv lines st)
    (hc : st.closed = true) :
    st.counter = 0 ∧ (∀ w ∈ st.workers, w.done = true ∧ w.pending = []) ∧
      st.printed.Perm lines.flatten := by
  have hz := h.waited_zero (h.closed_waited hc)
  have hn : notDone st.workers = 0 := by
    have := h.counter_eq
    omega
  have hall : ∀ w ∈ st.workers, w.done = true ∧ w.pending = [] := fun w hw =>
    ⟨notDone_zero _ hn w hw, h.done_last w hw (notDone_zero _ hn w hw)⟩
  refine ⟨hz, hall, ?_⟩
  have := h.lines_kept
  rwa [pendingLines_done _ hall, List.append_nil] at this

/-- C9: in every execution of the dispatcher, under every schedule, the
wait-group counter starts at the number of queries and always equals the number
of goroutines that have not called `wg.Done()`; a goroutine calls `wg.Done()`
only after its last send; no goroutine sends on the closed channel (no panic);
and once the channel is closed the counter is zero, every goroutine has sent
all its strings and finished, and the strings received by `main2` are the
strings the runs sent, none lost. -/
theorem dispatcher_closes_after_all_runs (lines : List (List String)) (sched : List Tid) :
    (Dispatch.init lines).counter = lines.length ∧
      (run sched (Dispatch.init lines)).panicked = false ∧
      (run sched (Dispatch.init lines)).counter =
        notDone (run sched (Dispatch.init lines)).workers ∧
      (∀ w ∈ (run sched (Dispatch.init lines)).workers, w.done = true → w.pending = []) ∧
      ((run sched (Dispatch.init lines)).closed = true →
        (run sched (Dispatch.init lines)).counter = 0 ∧
        (∀ w ∈ (run sched (Dispatch.init lines)).workers, w.done = true ∧ w.pending = []) ∧
        (run sched (Dispatch.init lines)).printed.Perm lines.flatten) ∧
      ((run sched (Dispatch.init lines)).returned = true →
        (run sched (Dispatch.init lines)).closed = true) := by
  have h := run_inv lines sched _ (init_inv lines)
  exact ⟨rfl, h.noPanic, h.counter_eq, h.done_last, closed_all_done lines _ h,
    h.returned_closed⟩

/-- An instance of C9: under `demoSchedule` the channel does get closed, and
the three strings of the two runs have then all been printed. -/
theorem dispatcher_closes_after_all_runs_witness :
    (run demoSchedule (Dispatch.init demoLines)).closed = true ∧
      (run demoSchedule (Dispatch.init demoLines)).printed.Perm demoLines.flatten :=
  ⟨by decide,
    ((dispatcher_closes_after_all_runs demoLines demoSchedule).2.2.2.2.1 (by decide)).2.2⟩

theorem readLoop_one_line {Msg : Type} (c : Codec Msg) (qtype fuel : Nat) (s : Stream)
    (hq : isZoneTransfer qtype = false)
    (hans : 2 ≤ s.incoming.length ∨ s.ending ≠ StreamEnd.deadline) :
    ∃ r, readLoop c qtype (fuel + 1) s [] = some r ∧ (runLines r).length = 1 := by
  unfold readLoop binaryReadUint16
  rcases h1 : ReadFull s 2 with ⟨res1, s1⟩
  cases res1 with
  | error e =>
    simp only
    cases hd : e.isDeadlineExceeded
    · exact ⟨_, rfl, by simp [runLines]⟩
    · exfalso
      have hshort := ReadFull_error_short _ _ _ _ h1
      have hend := ReadFull_error_deadline _ _ _ _ h1 hd
      rcases hans with h | h
      · omega
      · exact h hend
  | ok bs =>
    simp only
    rcases ReadFull s1 (BigEndianUint16 bs) with ⟨res2, s2⟩
    cases res2 with
    | error e => exact ⟨_, rfl, by simp [runLines]⟩
    | ok buf =>
      simp only
      cases c.unpack buf with
      | error e => exact ⟨_, rfl, by simp [runLines]⟩
      | ok resp =>
        simp only [hq]
        exact ⟨_, rfl, by simp [runLines]⟩

/-- A query that is not a zone transfer, on a stream whose first length read
does not time out, puts exactly one string on the channel: its result or its
error line. -/
theorem SendQuery_one_line {Msg : Type} (c : Codec Msg) (opened : Except Cause Stream)
    (query : Query) (dnssec recursion : Bool)
    (hq : isZoneTransfer query.Qtype = false)
    (hans : ∀ s, opened = .ok s → 2 ≤ s.incoming.length ∨ s.ending ≠ StreamEnd.deadline) :
    ∃ r, SendQuery c opened query dnssec recursion = some r ∧ (runLines r).length = 1 := by
  cases opened with
  | error e => exact ⟨_, rfl, by simp [runLines]⟩
  | ok stream =>
    cases hp : c.pack query recursion dnssec with
    | error e =>
      exact ⟨⟨[], some (Errorf "pack query" e), some stream.Close⟩,
        by simp only [SendQuery, hp], by simp [runLines]⟩
    | ok wire =>
      cases hw : stream.writeErr with
      | some e =>
        exact ⟨⟨[], some (Errorf "send query" e), some stream.Close⟩,
          by simp only [SendQuery, hp, Stream.Write, hw], by simp [runLines]⟩
      | none =>
        rw [SendQuery_sent c stream query dnssec recursion wire hp hw]
        exact readLoop_one_line c query.Qtype _ _ hq (hans stream rfl)

theorem runAll_one_line {Msg : Type} (c : Codec Msg) (session : Nat → Except Cause Stream)
    (dnssec recursion : Bool) :
    ∀ (queries : List Query) (i : Nat),
      (∀ q ∈ queries, isZoneTransfer q.Qtype = false) →
      (∀ j s, i ≤ j → j < i + queries.length → session j = .ok s →
        2 ≤ s.incoming.length ∨ s.ending ≠ StreamEnd.deadline) →
      ∃ results, runAll c session dnssec recursion i queries = some results ∧
        results.length = queries.length ∧ ∀ r ∈ results, (runLines r).length = 1 := by
  intro queries
  induction queries with
  | nil => intro i _ _; exact ⟨[], rfl, rfl, by simp⟩
  | cons q qs ih =>
    intro i hq hans
    obtain ⟨r, hr, hr1⟩ := SendQuery_one_line c (session i) q dnssec recursion
      (hq q (List.mem_cons_self _ _))
      (fun s hs => hans i s (Nat.le_refl _) (by simp) hs)
    obtain ⟨rs, hrs, hlen, hall⟩ := ih (i + 1) (fun p hp => hq p (List.mem_cons_of_mem _ hp))
      (fun j s h1 h2 hs => hans j s (by omega) (by simp only [List.length_cons]; omega) hs)
    refine ⟨r :: rs, by simp [runAll, hr, hrs], by simp [hlen], ?_⟩
    intro x hx
    simp only [List.mem_cons] at hx
    rcases hx with rfl | hx
    · exact hr1
    · exact hall x hx

theorem flatten_length_of_singletons (ls : List (List String))
    (h : ∀ l ∈ ls, l.length = 1) : ls.flatten.length = ls.length := by
  induction ls with
  | nil => rfl
  | cons l ls ih =>
    have h1 := h l (List.mem_cons_self _ _)
    have h2 := ih (fun m hm => h m (List.mem_cons_of_mem _ hm))
    simp [h1, h2]
    omega

/-- C6 fails with a zone transfer among the queries: two queries, each answered
within its deadline, the AXFR one by two frames, put three strings on the
channel however the goroutines are scheduled. -/
theorem dispatch_zone_transfer_three_lines :
    runAll demoCodec demoSession true true 0 demoQueries = some demoResults ∧
      demoQueries.length = 2 ∧
      (∀ i s, demoSession i = .ok s → 2 ≤ s.incoming.length ∧ s.writeErr = none) ∧
      (∀ r ∈ demoResults, r.err = none) ∧
      (∃ sched, (run sched (Dispatch.init (demoResults.map runLines))).returned = true) ∧
      ∀ sched, (run sched (Dispatch.init (demoResults.map runLines))).closed = true →
        (run sched (Dispatch.init (demoResults.map runLines))).printed.length = 3 := by
  refine ⟨rfl, rfl, ?_, ?_, run_can_finish _ [], ?_⟩
  · intro i s hs
    cases i with
    | zero => simp [demoSession, idleAfter] at hs; subst hs; exact ⟨by decide, rfl⟩
    | succ i => simp [demoSession, idleAfter] at hs; subst hs; exact ⟨by decide, rfl⟩
  · intro r hr
    simp only [demoResults, List.mem_cons, List.mem_singleton, List.not_mem_nil, or_false] at hr
    rcases hr with rfl | rfl <;> rfl
  · intro sched hc
    have h := run_inv _ sched _ (init_inv (demoResults.map runLines))
    have := (closed_all_done _ _ h hc).2.2.length_eq
    rw [this]
    rfl

/-- C6 (amended): for every list of `N` queries none of which is a zone
transfer, dispatched over one connection on which each query's stream receives
the two length bytes of an answer, or fails, before its read deadline, every
run returns and sends exactly one string, a result or a formatted "failed to
send query" line; under every schedule at most `N` strings are on the channel,
exactly `N` once it is closed, and every schedule can be extended so that
`main2` returns with exactly `N` strings printed. -/
theorem dispatch_one_line_per_query {Msg : Type} (c : Codec Msg)
    (session : Nat → Except Cause Stream) (dnssec recursion : Bool) (queries : List Query)
    (sched : List Tid)
    (hq : ∀ q ∈ queries, q.Qtype ≠ TypeAXFR ∧ q.Qtype ≠ TypeIXFR)
    (hans : ∀ i s, i < queries.length → session i = .ok s →
      2 ≤ s.incoming.length ∨ s.ending ≠ StreamEnd.deadline) :
    ∃ results, runAll c session dnssec recursion 0 queries = some results ∧
      results.length = queries.length ∧
      (∀ r ∈ results, (runLines r).length = 1) ∧
      (run sched (Dispatch.init (results.map runLines))).printed.length ≤ queries.length ∧
      ((run sched (Dispatch.init (results.map runLines))).closed = true →
        (run sched (Dispatch.init (results.map runLines))).printed.length = queries.length) ∧
      ∃ more,
        (run (sched ++ more) (Dispatch.init (results.map runLines))).returned = true ∧
        (run (sched ++ more) (Dispatch.init (results.map runLines))).printed.length =
          queries.length := by
  obtain ⟨results, hrun, hlen, hone⟩ := runAll_one_line c session dnssec recursion queries 0
    (fun q hq1 => isZoneTransfer_false _ (hq q hq1).1 (hq q hq1).2)
    (fun j s _ h2 hs => hans j s (by omega) hs)
  have htotal : (results.map runLines).flatten.length = queries.length := by
    rw [flatten_length_of_singletons _ (by
      intro l hl
      obtain ⟨r, hr, rfl⟩ := List.mem_map.mp hl
      exact hone r hr)]
    simp [hlen]
  have hclosed : ∀ s, (run s (Dispatch.init (results.map runLines))).closed = true →
      (run s (Dispatch.init (results.map runLines))).printed.length = queries.length := by
    intro s hc
    have h := run_inv _ s _ (init_inv (results.map runLines))
    rw [(closed_all_done _ _ h hc).2.2.length_eq, htotal]
  refine ⟨results, hrun, hlen, hone, ?_, hclosed sched, ?_⟩
  · have h := run_inv _ sched _ (init_inv (results.map runLines))
    have := h.lines_kept.length_eq
    rw [htotal, List.length_append] at this
    omega
  · obtain ⟨more, hmore⟩ := run_can_finish (results.map runLines) sched
    have h := run_inv _ (sched ++ more) _ (init_inv (results.map runLines))
    exact ⟨more, hmore, hclosed _ (h.returned_closed hmore)⟩

/-- An instance of C6 (amended): two address queries, each answered by one
frame. -/
theorem dispatch_one_line_per_query_witness :
    ∃ results, runAll demoCodec (fun _ => .ok (idleAfter (frameBytes [7]))) true true 0
          [⟨"example.com.", 1⟩, ⟨"example.com.", 28⟩] = some results ∧
      results.length = [(⟨"example.com.", 1⟩ : Query), ⟨"example.com.", 28⟩].length ∧
      (∀ r ∈ results, (runLines r).length = 1) ∧
      (run demoSchedule (Dispatch.init (results.map runLines))).printed.length ≤
        [(⟨"example.com.", 1⟩ : Query), ⟨"example.com.", 28⟩].length ∧
      ((run demoSchedule (Dispatch.init (results.map runLines))).closed = true →
        (run demoSchedule (Dispatch.init (results.map runLines))).printed.length =
          [(⟨"example.com.", 1⟩ : Query), ⟨"example.com.", 28⟩].length) ∧
      ∃ more,
        (run (demoSchedule ++ more) (Dispatch.init (results.map runLines))).returned = true ∧
        (run (demoSchedule ++ more) (Dispatch.init (results.map runLines))).printed.length =
          [(⟨"example.com.", 1⟩ : Query), ⟨"example.com.", 28⟩].length :=
  dispatch_one_line_per_query demoCodec (fun _ => .ok (idleAfter (frameBytes [7]))) true true
    [⟨"example.com.", 1⟩, ⟨"example.com.", 28⟩] demoSchedule
    (by
      intro q hq
      simp only [List.mem_cons, List.mem_singleton, List.not_mem_nil, or_false] at hq
      rcases hq with rfl | rfl <;> exact ⟨by decide, by decide⟩)
    (by
      intro i s _ hs
      simp only [Except.ok.injEq] at hs
      subst hs
      exact Or.inl (by decide))

end DoqClient
